import Mathlib

/-!
# gocube: conversions between sticker cubes and cubie cubes

A shallow embedding of `conversions.go` and a verification of its
specification.

Conventions of the embedding

* A Go `int` is a Lean `Int`.  The only arithmetic the program performs is
  `i * 2`, `i * 3`, `+ 1`, `+ 2`, `+ 3` and `(p ^ i) & 7` on slot numbers and
  on piece identities; every statement below that depends on such a value
  bounds it by 12, so no machine overflow is involved.
* A Go function can end in three ways: it returns normally, it returns a
  non-nil `error`, or it stops with a run-time panic (index out of range).
  `Outcome` keeps the three apart.
* A Go array `[n]T` is a function `Fin n → T`; a Go slice `[]int` is a
  `List Int`.
-/

namespace Gocube

/-! ## Results of a Go call -/

/-- Outcome of a Go call: a value, an `error` built by `errors.New` (kept as
its message), or a run-time panic. -/
inductive Outcome (α : Type) where
  | ok (val : α) : Outcome α
  | err (msg : String) : Outcome α
  | panic : Outcome α
deriving DecidableEq

/-- Sequencing of Go statements: the first error or panic ends the call. -/
def Outcome.bind {α β : Type} (x : Outcome α) (f : α → Outcome β) : Outcome β :=
  match x with
  | .ok a => f a
  | .err m => .err m
  | .panic => .panic

instance : Monad Outcome where
  pure := Outcome.ok
  bind := Outcome.bind

/-- The call returned a non-nil error. -/
def Outcome.isErr {α : Type} : Outcome α → Bool
  | .err _ => true
  | _ => false

/-! ## The geometry tables -/

/-- Go: `var CornerIndexes = []int{...}`: for each corner slot, the sticker
indexes of its x, y and z stickers. -/
def CornerIndexes : List Int :=
  [51, 15, 35,
   44, 17, 33,
   45, 0, 29,
   38, 2, 27,
   53, 9, 24,
   42, 11, 26,
   47, 6, 18,
   36, 8, 20]

/-- Go: `var CornerPieces = []int{...}`: for each corner piece, its x, y and
z stickers. -/
def CornerPieces : List Int :=
  [6, 2, 4,
   5, 2, 4,
   6, 1, 4,
   5, 1, 4,
   6, 2, 3,
   5, 2, 3,
   6, 1, 3,
   5, 1, 3]

/-- Go: `var EdgeIndexes = []int{...}`: the sticker indexes of each edge. -/
def EdgeIndexes : List Int :=
  [7, 19,
   23, 39,
   10, 25,
   21, 50,
   3, 46,
   5, 37,
   1, 28,
   30, 41,
   16, 34,
   32, 48,
   12, 52,
   14, 43]

/-- Go: `var EdgePieces = []int{...}`: the stickers of each edge. -/
def EdgePieces : List Int :=
  [1, 3,
   3, 5,
   2, 3,
   3, 6,
   1, 6,
   1, 5,
   1, 4,
   4, 5,
   2, 4,
   4, 6,
   2, 6,
   2, 5]

/-! ## Data model -/

/-- Modelled from the spec: the declaration of the type `StickerCube` is not
part of the sources; the specification describes it as a fixed-size ordered
sequence of 54 colour codes, one per facelet position.  The code indexes it
with `int`s and stores `int`s in it, so it is an array `[54]int`. -/
abbrev StickerCube : Type := Fin 54 → Int

/-- Modelled from the spec: the declaration of the corner entries of a
`CubieCube` is not part of the sources; the specification gives each a piece
identity and an orientation value.  Both fields are `int`, as the code
assigns the two `int` results of `findCorner` to them. -/
structure CubieCorner where
  Piece : Int
  Orientation : Int
deriving DecidableEq

/-- Modelled from the spec: the declaration of the edge entries of a
`CubieCube` is not part of the sources; the specification gives each a piece
identity and a boolean flip flag.  The code assigns the `int` and the `bool`
result of `findEdge` to them. -/
structure CubieEdge where
  Piece : Int
  Flip : Bool
deriving DecidableEq

/-- Modelled from the spec: the declaration of the type `CubieCube` is not
part of the sources; the specification describes it as 8 corner entries and
12 edge entries, which the code reads as `c.Corners` and `c.Edges`. -/
structure CubieCube where
  Corners : Fin 8 → CubieCorner
  Edges : Fin 12 → CubieEdge

/-- Go: `var result CubieCube`, the zero value. -/
def CubieCube.zero : CubieCube :=
  ⟨fun _ => ⟨0, 0⟩, fun _ => ⟨0, false⟩⟩

/-- Modelled from the spec: `SolvedStickerCube()` is not part of the sources;
the specification describes the solved sticker cube as having each face
uniformly one colour, face `k` (positions `9k .. 9k+8`) carrying colour
`k + 1`. -/
def SolvedStickerCube : StickerCube :=
  fun k => (k.val / 9 : Nat) + 1

/-! ## Indexing -/

/-- Go: `xs[i]` on a slice; panics when `i` is out of range. -/
def index (xs : List Int) (i : Int) : Outcome Int :=
  if 0 ≤ i then
    match xs[i.toNat]? with
    | some v => .ok v
    | none => .panic
  else .panic

/-- Go: `xs[lo:hi]` on a slice whose capacity is its length; panics unless
`0 ≤ lo ≤ hi ≤ len(xs)`. -/
def slice (xs : List Int) (lo hi : Int) : Outcome (List Int) :=
  if 0 ≤ lo ∧ lo ≤ hi ∧ hi ≤ xs.length then
    .ok ((xs.drop lo.toNat).take (hi.toNat - lo.toNat))
  else .panic

/-- Go: `s[k]` on a sticker cube; panics when `k` is out of range. -/
def StickerCube.read (s : StickerCube) (k : Int) : Outcome Int :=
  if h : 0 ≤ k ∧ k < 54 then .ok (s ⟨k.toNat, by omega⟩) else .panic

/-- Go: `res[k] = v` on a sticker cube; panics when `k` is out of range. -/
def StickerCube.write (s : StickerCube) (k : Int) (v : Int) : Outcome StickerCube :=
  if h : 0 ≤ k ∧ k < 54 then
    .ok (fun j => if j = (⟨k.toNat, by omega⟩ : Fin 54) then v else s j)
  else .panic

/-- Go: `strconv.Itoa`, the decimal representation of an `int`. -/
def Itoa (n : Int) : String := toString n

/-! ## Helpers of `conversions.go` -/

/-- Go: `listContains`. -/
def listContains : List Int → Int → Bool
  | [], _ => false
  | x :: rest, num => if x = num then true else listContains rest num

/-- Loop of `listIndex`; `i` is the index of the head of the list. -/
def listIndexFrom : List Int → Int → Int → Int
  | [], _, _ => -1
  | x :: rest, num, i => if x = num then i else listIndexFrom rest num (i + 1)

/-- Go: `listIndex`. -/
def listIndex (list : List Int) (num : Int) : Int :=
  listIndexFrom list num 0

/-- Loop of `setsEqual` over `set1`. -/
def setsEqualLoop : List Int → List Int → Bool
  | [], _ => true
  | x :: rest, set2 => if !listContains set2 x then false else setsEqualLoop rest set2

/-- Go: `setsEqual`. -/
def setsEqual (set1 set2 : List Int) : Bool :=
  if set1.length ≠ set2.length then false
  else setsEqualLoop set1 set2

/-! ## Identification of a piece from its stickers -/

/-- Go: the `[3]int` argument of `findCorner` viewed as the slice
`stickers[:]`. -/
def triple (stickers : Int × Int × Int) : List Int :=
  [stickers.1, stickers.2.1, stickers.2.2]

/-- Go: the `[2]int` argument of `findEdge` viewed as the slice
`stickers[:]`. -/
def pair (stickers : Int × Int) : List Int :=
  [stickers.1, stickers.2]

/-- Message of the error `findCorner` returns. -/
def cornerError (stickers : Int × Int × Int) : String :=
  "unrecognized corner: " ++
    Itoa stickers.1 ++ "," ++ Itoa stickers.2.1 ++ "," ++
    Itoa stickers.2.2

/-- Message of the error `findEdge` returns. -/
def edgeError (stickers : Int × Int) : String :=
  "unrecognized edge: " ++
    Itoa stickers.1 ++ "," ++ Itoa stickers.2

/-- Loop of `findCorner`; the list holds the values of `i` still to try. -/
def findCornerLoop (stickers : Int × Int × Int) : List Int → Outcome (Int × Int)
  | [] => .err (cornerError stickers)
  | i :: rest =>
    let start := i * 3
    match slice CornerPieces start (start + 3) with
    | .ok canon =>
      if !setsEqual (triple stickers) canon then
        findCornerLoop stickers rest
      else
        let orientation := listIndex (triple stickers) 1
        let orientation :=
          if orientation = -1 then listIndex (triple stickers) 2 else orientation
        .ok (i, orientation)
    | .err m => .err m
    | .panic => .panic

/-- Go: `findCorner`; returns the piece and its orientation. -/
def findCorner (stickers : Int × Int × Int) : Outcome (Int × Int) :=
  findCornerLoop stickers [0, 1, 2, 3, 4, 5, 6, 7]

/-- Loop of `findEdge`; the list holds the values of `i` still to try. -/
def findEdgeLoop (stickers : Int × Int) : List Int → Outcome (Int × Bool)
  | [] => .err (edgeError stickers)
  | i :: rest =>
    let start := i * 2
    match slice EdgePieces start (start + 2) with
    | .ok canon =>
      if !setsEqual (pair stickers) canon then
        findEdgeLoop stickers rest
      else
        let flip :=
          if stickers.2 = 1 ∨ stickers.2 = 2 then true
          else if stickers.2 = 3 ∨ stickers.2 = 4 then
            if stickers.1 ≠ 1 ∧ stickers.1 ≠ 2 then true else false
          else false
        .ok (i, flip)
    | .err m => .err m
    | .panic => .panic

/-- Go: `findEdge`; returns the piece and its flip. -/
def findEdge (stickers : Int × Int) : Outcome (Int × Bool) :=
  findEdgeLoop stickers [0, 1, 2, 3, 4, 5, 6, 7, 8, 9, 10, 11]

/-! ## The inverse transform: stickers to cubies -/

/-- Body of the first loop of `StickerCube.CubieCube` for corner slot `i`. -/
def translateCorner (s : StickerCube) (result : CubieCube) (i : Fin 8) :
    Outcome CubieCube := do
  let idx : Int := (i.val : Int) * 3
  let k0 ← index CornerIndexes idx
  let c0 ← StickerCube.read s k0
  let k1 ← index CornerIndexes (idx + 1)
  let c1 ← StickerCube.read s k1
  let k2 ← index CornerIndexes (idx + 2)
  let c2 ← StickerCube.read s k2
  let found ← findCorner (c0, c1, c2)
  pure ⟨fun j => if j = i then ⟨found.1, found.2⟩ else result.Corners j, result.Edges⟩

/-- Body of the second loop of `StickerCube.CubieCube` for edge slot `i`. -/
def translateEdge (s : StickerCube) (result : CubieCube) (i : Fin 12) :
    Outcome CubieCube := do
  let idx : Int := (i.val : Int) * 2
  let k0 ← index EdgeIndexes idx
  let c0 ← StickerCube.read s k0
  let k1 ← index EdgeIndexes (idx + 1)
  let c1 ← StickerCube.read s k1
  let found ← findEdge (c0, c1)
  pure ⟨result.Corners, fun j => if j = i then ⟨found.1, found.2⟩ else result.Edges j⟩

/-- Go: `func (s *StickerCube) CubieCube() (*CubieCube, error)`.  A returned
error comes with a nil pointer, so `Outcome.err` carries no cube. -/
def StickerCube.CubieCube (s : Gocube.StickerCube) : Outcome Gocube.CubieCube := do
  let result ← (List.finRange 8).foldlM (translateCorner s) CubieCube.zero
  (List.finRange 12).foldlM (translateEdge s) result

/-! ## The forward transform: cubies to stickers -/

/-- Body of the first loop of `CubieCube.StickerCube`: edge slot `i` holds
`piece`. -/
def insertEdge (res : StickerCube) (i : Fin 12) (piece : CubieEdge) :
    Outcome StickerCube := do
  let pieceIdx := piece.Piece * 2
  let s1 ← index EdgePieces pieceIdx
  let s2 ← index EdgePieces (pieceIdx + 1)
  let s12 := if piece.Flip then (s2, s1) else (s1, s2)
  let destIdx : Int := (i.val : Int) * 2
  let d1 ← index EdgeIndexes destIdx
  let res ← StickerCube.write res d1 s12.1
  let d2 ← index EdgeIndexes (destIdx + 1)
  StickerCube.write res d2 s12.2

/-- Go: `difference == 1 || difference == 2 || difference == 4 ||
difference == 7` for `difference := (piece.Piece ^ i) & 7`. -/
def oddCoset (piece i : Int) : Bool :=
  let difference := Int.land (Int.xor piece i) 7
  difference = 1 ∨ difference = 2 ∨ difference = 4 ∨ difference = 7

/-- Go: the two reorderings of `s1, s2, s3` in the second loop of
`CubieCube.StickerCube`, the swap for the odd coset and then the twist. -/
def twist (piece : CubieCorner) (i : Int) (s : Int × Int × Int) : Int × Int × Int :=
  let s := if oddCoset piece.Piece i then (s.2.2, s.2.1, s.1) else s
  if piece.Orientation = 2 then (s.2.2, s.1, s.2.1)
  else if piece.Orientation = 0 then (s.2.1, s.2.2, s.1)
  else s

/-- Body of the second loop of `CubieCube.StickerCube`: corner slot `i` holds
`piece`. -/
def insertCorner (res : StickerCube) (i : Fin 8) (piece : CubieCorner) :
    Outcome StickerCube := do
  let idx := piece.Piece * 3
  let s1 ← index CornerPieces idx
  let s2 ← index CornerPieces (idx + 1)
  let s3 ← index CornerPieces (idx + 2)
  let s := twist piece (i.val : Int) (s1, s2, s3)
  let destIdx : Int := (i.val : Int) * 3
  let d1 ← index CornerIndexes destIdx
  let res ← StickerCube.write res d1 s.1
  let d2 ← index CornerIndexes (destIdx + 1)
  let res ← StickerCube.write res d2 s.2.1
  let d3 ← index CornerIndexes (destIdx + 2)
  StickerCube.write res d3 s.2.2

/-- Go: `func (c *CubieCube) StickerCube() StickerCube`. -/
def CubieCube.StickerCube (c : Gocube.CubieCube) : Outcome Gocube.StickerCube := do
  let res ← (List.finRange 12).foldlM (fun res i => insertEdge res i (c.Edges i))
    SolvedStickerCube
  (List.finRange 8).foldlM (fun res i => insertCorner res i (c.Corners i)) res

/-- Go: the assignment `res[k] = v` of `CubieCube.StickerCube` seen as an
event: it panics when the assignment does and otherwise appends `k` to the
log of written positions. -/
def logWrite (log : List Int) (k : Int) : Outcome (List Int) :=
  if 0 ≤ k ∧ k < 54 then .ok (log ++ [k]) else .panic

/-- Body of the first loop of `CubieCube.StickerCube` with every assignment
to `res` replaced by `logWrite`. -/
def insertEdgeLog (log : List Int) (i : Fin 12) (piece : CubieEdge) :
    Outcome (List Int) := do
  let pieceIdx := piece.Piece * 2
  let _ ← index EdgePieces pieceIdx
  let _ ← index EdgePieces (pieceIdx + 1)
  let destIdx : Int := (i.val : Int) * 2
  let d1 ← index EdgeIndexes destIdx
  let log ← logWrite log d1
  let d2 ← index EdgeIndexes (destIdx + 1)
  logWrite log d2

/-- Body of the second loop of `CubieCube.StickerCube` with every assignment
to `res` replaced by `logWrite`. -/
def insertCornerLog (log : List Int) (i : Fin 8) (piece : CubieCorner) :
    Outcome (List Int) := do
  let idx := piece.Piece * 3
  let _ ← index CornerPieces idx
  let _ ← index CornerPieces (idx + 1)
  let _ ← index CornerPieces (idx + 2)
  let destIdx : Int := (i.val : Int) * 3
  let d1 ← index CornerIndexes destIdx
  let log ← logWrite log d1
  let d2 ← index CornerIndexes (destIdx + 1)
  let log ← logWrite log d2
  let d3 ← index CornerIndexes (destIdx + 2)
  logWrite log d3

/-- The positions `CubieCube.StickerCube` assigns to, in the order of the
assignments: the same two loops, run on the log instead of on `res`. -/
def CubieCube.StickerCubeWrites (c : Gocube.CubieCube) : Outcome (List Int) := do
  let log ← (List.finRange 12).foldlM (fun log i => insertEdgeLog log i (c.Edges i)) []
  (List.finRange 8).foldlM (fun log i => insertCornerLog log i (c.Corners i)) log

/-! ## Vocabulary of the specification -/

/-- Sticker position `j` of corner slot `i`, read off `CornerIndexes`. -/
def cornerPos (i : Fin 8) (j : Fin 3) : Fin 54 :=
  ⟨(CornerIndexes.getD (i.val * 3 + j.val) 0).toNat % 54, Nat.mod_lt _ (by decide)⟩

/-- Sticker position `j` of edge slot `i`, read off `EdgeIndexes`. -/
def edgePos (i : Fin 12) (j : Fin 2) : Fin 54 :=
  ⟨(EdgeIndexes.getD (i.val * 2 + j.val) 0).toNat % 54, Nat.mod_lt _ (by decide)⟩

/-- The three stickers of corner slot `i`, in slot order. -/
def cornerStickers (s : StickerCube) (i : Fin 8) : Int × Int × Int :=
  (s (cornerPos i 0), s (cornerPos i 1), s (cornerPos i 2))

/-- The two stickers of edge slot `i`, in slot order. -/
def edgeStickers (s : StickerCube) (i : Fin 12) : Int × Int :=
  (s (edgePos i 0), s (edgePos i 1))

/-- The sticker cube `s` with colour `v` at position `k`. -/
def put (s : StickerCube) (k : Fin 54) (v : Int) : StickerCube :=
  fun j => if j = k then v else s j

/-- The sticker cube `s` with the three stickers of corner slot `i`
overwritten by `t`, in slot order. -/
def overwriteCorner (s : StickerCube) (i : Fin 8) (t : Int × Int × Int) : StickerCube :=
  put (put (put s (cornerPos i 0) t.1) (cornerPos i 1) t.2.1) (cornerPos i 2) t.2.2

/-- The sticker cube `s` with the two stickers of edge slot `i` overwritten
by `t`, in slot order. -/
def overwriteEdge (s : StickerCube) (i : Fin 12) (t : Int × Int) : StickerCube :=
  put (put s (edgePos i 0) t.1) (edgePos i 1) t.2

/-- Canonical colour `j` of edge piece `p`, read off `EdgePieces`. -/
def edgeColour (p : Int) (j : Nat) : Int :=
  EdgePieces.getD ((p * 2).toNat + j) 0

/-- Canonical colour `j` of corner piece `p`, read off `CornerPieces`. -/
def cornerColour (p : Int) (j : Nat) : Int :=
  CornerPieces.getD ((p * 3).toNat + j) 0

/-- Canonical colours of corner piece `p`: `CornerPieces[3p : 3p+3]`. -/
def cornerCanon (p : Fin 8) : List Int :=
  [cornerColour p.val 0, cornerColour p.val 1, cornerColour p.val 2]

/-- Canonical colours of edge piece `p`: `EdgePieces[2p : 2p+2]`. -/
def edgeCanon (p : Fin 12) : List Int :=
  [edgeColour p.val 0, edgeColour p.val 1]

/-- The two lists hold the same colours, as unordered sets. -/
def SameSet (a b : List Int) : Prop :=
  (∀ x ∈ a, x ∈ b) ∧ ∀ x ∈ b, x ∈ a

instance (a b : List Int) : Decidable (SameSet a b) := by
  unfold SameSet
  infer_instance

/-- Orientation `findCorner` computes for a triple it accepts. -/
def orientationOf (stickers : Int × Int × Int) : Int :=
  if listIndex (triple stickers) 1 = -1 then listIndex (triple stickers) 2
  else listIndex (triple stickers) 1

/-- Flip `findEdge` computes for a pair it accepts. -/
def flipOf (stickers : Int × Int) : Bool :=
  if stickers.2 = 1 ∨ stickers.2 = 2 then true
  else if stickers.2 = 3 ∨ stickers.2 = 4 then
    if stickers.1 ≠ 1 ∧ stickers.1 ≠ 2 then true else false
  else false

/-- The two colours the forward transform gives an edge slot holding `piece`. -/
def edgeImage (piece : CubieEdge) : Int × Int :=
  if piece.Flip then (edgeColour piece.Piece 1, edgeColour piece.Piece 0)
  else (edgeColour piece.Piece 0, edgeColour piece.Piece 1)

/-- The three colours the forward transform gives corner slot `i` holding
`piece`. -/
def cornerImage (i : Fin 8) (piece : CubieCorner) : Int × Int × Int :=
  twist piece (i.val : Int)
    (cornerColour piece.Piece 0, cornerColour piece.Piece 1, cornerColour piece.Piece 2)

/-- The sticker cube the forward transform builds from `c`: the solved cube
with the image of every edge slot and then of every corner slot put in. -/
def image (c : CubieCube) : StickerCube :=
  (List.finRange 8).foldl
    (fun res i => put (put (put res (cornerPos i 0) (cornerImage i (c.Corners i)).1)
      (cornerPos i 1) (cornerImage i (c.Corners i)).2.1)
      (cornerPos i 2) (cornerImage i (c.Corners i)).2.2)
    ((List.finRange 12).foldl
      (fun res i => put (put res (edgePos i 0) (edgeImage (c.Edges i)).1)
        (edgePos i 1) (edgeImage (c.Edges i)).2)
      SolvedStickerCube)

/-- Corner identities in `0..7` and edge identities in `0..11`. -/
def InRange (c : CubieCube) : Prop :=
  (∀ i, 0 ≤ (c.Corners i).Piece ∧ (c.Corners i).Piece < 8) ∧
    ∀ i, 0 ≤ (c.Edges i).Piece ∧ (c.Edges i).Piece < 12

/-- A scrambled cubie cube: the corners are shifted by three slots and the
edges permuted by `i ↦ 5 i + 1`, with mixed orientations and flips. -/
def scrambled : CubieCube :=
  ⟨fun i => ⟨((i.val + 3) % 8 : Nat), (i.val % 3 : Nat)⟩,
   fun i => ⟨((i.val * 5 + 1) % 12 : Nat), decide (i.val % 2 = 0)⟩⟩

/-- The swap of C11 in the words of the specification: `c1` and `c3` change
places exactly when `(p XOR i)`, masked to 3 bits, is one of 1, 2, 4, 7. -/
def specSwap (p i : Int) (c : Int × Int × Int) : Int × Int × Int :=
  if Int.land (Int.xor p i) 7 ∈ ([1, 2, 4, 7] : List Int) then (c.2.2, c.2.1, c.1) else c

/-- The reordering of C11 in the words of the specification: `(c3, c1, c2)`
for orientation 2, `(c2, c3, c1)` for orientation 0, unchanged for
orientation 1. -/
def specReorder (o : Int) (c : Int × Int × Int) : Int × Int × Int :=
  if o = 2 then (c.2.2, c.1, c.2.1)
  else if o = 0 then (c.2.1, c.2.2, c.1)
  else c

/-- The number of set bits among the low 64 bits of `n` is odd. -/
def oddBits (n : Int) : Prop :=
  ((List.range 64).filter fun k => Int.testBit n k).length % 2 = 1

instance (n : Int) : Decidable (oddBits n) := by
  unfold oddBits
  infer_instance

/-- The cubie cube holding piece `i` in every slot `i`, every corner with
orientation `o` and no edge flipped. -/
def homeCube (o : Int) : CubieCube :=
  ⟨fun i => ⟨(i.val : Int), o⟩, fun j => ⟨(j.val : Int), false⟩⟩

/-- `findCorner` accepts the stickers of corner slot `i`. -/
def CornerAccepted (s : StickerCube) (i : Fin 8) : Prop :=
  ∃ v, findCorner (cornerStickers s i) = .ok v

/-- `findEdge` accepts the stickers of edge slot `i`. -/
def EdgeAccepted (s : StickerCube) (i : Fin 12) : Prop :=
  ∃ v, findEdge (edgeStickers s i) = .ok v

/-- Corner slot `i` is the lowest-indexed corner slot that is rejected. -/
def FirstRejectedCorner (s : StickerCube) (i : Fin 8) : Prop :=
  (∀ j, j < i → CornerAccepted s j) ∧ ¬ CornerAccepted s i

/-- Edge slot `i` is the lowest-indexed edge slot that is rejected. -/
def FirstRejectedEdge (s : StickerCube) (i : Fin 12) : Prop :=
  (∀ j, j < i → EdgeAccepted s j) ∧ ¬ EdgeAccepted s i

/-- The solved cube with corner slots 3 and 5 and edge slot 2 overwritten by
colours of no piece. -/
def doublyCorrupted : StickerCube :=
  overwriteEdge (overwriteCorner (overwriteCorner SolvedStickerCube 5 (8, 8, 8)) 3 (7, 1, 7))
    2 (9, 9)

/-- The solved cube with its six centre stickers repainted with colour 0. -/
def centresRepainted : StickerCube :=
  fun k => if k.val % 9 = 4 then 0 else SolvedStickerCube k

/-! ## Basic facts about the embedding -/

@[simp] theorem Outcome.ok_bind {α β : Type} (a : α) (f : α → Outcome β) :
    (Outcome.ok a >>= f) = f a := rfl

@[simp] theorem Outcome.err_bind {α β : Type} (m : String) (f : α → Outcome β) :
    (Outcome.err m >>= f) = Outcome.err m := rfl

@[simp] theorem Outcome.panic_bind {α β : Type} (f : α → Outcome β) :
    (Outcome.panic >>= f) = Outcome.panic := rfl

@[simp] theorem Outcome.pure_eq {α : Type} (a : α) :
    (pure a : Outcome α) = Outcome.ok a := rfl

/-! ### Slot positions and the inverse transform, slot by slot -/

theorem finRange_eight : List.finRange 8 = [0, 1, 2, 3, 4, 5, 6, 7] := by
  decide

theorem finRange_twelve :
    List.finRange 12 = [0, 1, 2, 3, 4, 5, 6, 7, 8, 9, 10, 11] := by
  decide

theorem index_CornerIndexes :
    ∀ i : Fin 8, index CornerIndexes ((i.val : Int) * 3) = .ok ((cornerPos i 0).val : Int) ∧
      index CornerIndexes ((i.val : Int) * 3 + 1) = .ok ((cornerPos i 1).val : Int) ∧
      index CornerIndexes ((i.val : Int) * 3 + 2) = .ok ((cornerPos i 2).val : Int) := by
  decide

theorem index_EdgeIndexes :
    ∀ i : Fin 12, index EdgeIndexes ((i.val : Int) * 2) = .ok ((edgePos i 0).val : Int) ∧
      index EdgeIndexes ((i.val : Int) * 2 + 1) = .ok ((edgePos i 1).val : Int) := by
  decide

/-- Reading at a position of the cube does not panic. -/
theorem read_pos (s : StickerCube) (k : Fin 54) :
    StickerCube.read s (k.val : Int) = .ok (s k) := by
  have h : 0 ≤ (k.val : Int) ∧ (k.val : Int) < 54 := by omega
  simp [StickerCube.read, h]

/-- Writing at a position of the cube does not panic. -/
theorem write_pos (s : StickerCube) (k : Fin 54) (v : Int) :
    StickerCube.write s (k.val : Int) v = .ok (put s k v) := by
  have h : 0 ≤ (k.val : Int) ∧ (k.val : Int) < 54 := by omega
  simp only [StickerCube.write, h, and_self, dite_true, Int.toNat_ofNat, Fin.eta]
  rfl

/-- One step of the corner loop: identify the stickers of slot `i` and record
the result. -/
theorem translateCorner_eq (s : StickerCube) (result : CubieCube) (i : Fin 8) :
    translateCorner s result i =
      (findCorner (cornerStickers s i)).bind fun found =>
        .ok ⟨fun j => if j = i then ⟨found.1, found.2⟩ else result.Corners j, result.Edges⟩ := by
  obtain ⟨h0, h1, h2⟩ := index_CornerIndexes i
  simp only [translateCorner, h0, h1, h2, Outcome.ok_bind, read_pos, Outcome.pure_eq, cornerStickers]
  rfl

/-- One step of the edge loop: identify the stickers of slot `i` and record
the result. -/
theorem translateEdge_eq (s : StickerCube) (result : CubieCube) (i : Fin 12) :
    translateEdge s result i =
      (findEdge (edgeStickers s i)).bind fun found =>
        .ok ⟨result.Corners, fun j => if j = i then ⟨found.1, found.2⟩ else result.Edges j⟩ := by
  obtain ⟨h0, h1⟩ := index_EdgeIndexes i
  simp only [translateEdge, h0, h1, Outcome.ok_bind, read_pos, Outcome.pure_eq, edgeStickers]
  rfl

/-- A loop whose every step returns normally returns the fold of the steps. -/
theorem foldlM_ok {α β : Type} (f : β → α → Outcome β) (g : β → α → β) (l : List α)
    (h : ∀ b a, a ∈ l → f b a = .ok (g b a)) (b : β) :
    l.foldlM f b = .ok (l.foldl g b) := by
  induction l generalizing b with
  | nil => rfl
  | cons a l ih =>
    simp only [List.foldlM_cons, List.foldl_cons]
    rw [h b a (List.mem_cons_self a l)]
    exact ih (fun b x hx => h b x (List.mem_cons_of_mem a hx)) (g b a)

/-- When every slot is identified, the inverse transform returns the cube
made of the identified pieces. -/
theorem CubieCube_ok_of_slots (s : StickerCube) (fc : Fin 8 → Int × Int)
    (fe : Fin 12 → Int × Bool)
    (hc : ∀ i, findCorner (cornerStickers s i) = .ok (fc i))
    (he : ∀ i, findEdge (edgeStickers s i) = .ok (fe i)) :
    StickerCube.CubieCube s =
      .ok ⟨fun i => ⟨(fc i).1, (fc i).2⟩, fun i => ⟨(fe i).1, (fe i).2⟩⟩ := by
  unfold StickerCube.CubieCube
  rw [foldlM_ok (translateCorner s)
    (fun r i => ⟨fun j => if j = i then ⟨(fc i).1, (fc i).2⟩ else r.Corners j, r.Edges⟩)
    _ (fun r i _ => by rw [translateCorner_eq, hc]; rfl)]
  rw [Outcome.ok_bind]
  rw [foldlM_ok (translateEdge s)
    (fun r i => ⟨r.Corners, fun j => if j = i then ⟨(fe i).1, (fe i).2⟩ else r.Edges j⟩)
    _ (fun r i _ => by rw [translateEdge_eq, he]; rfl)]
  congr 1
  simp only [finRange_eight, finRange_twelve, List.foldl_cons, List.foldl_nil]
  congr 1
  · funext j
    fin_cases j <;> simp
  · funext j
    fin_cases j <;> simp

/-! ### The forward transform, slot by slot -/

theorem index_of_lt (xs : List Int) (k : Nat) (h : k < xs.length) :
    index xs (k : Int) = .ok (xs.getD k 0) := by
  simp [index, List.getD, List.getElem?_eq_getElem h]

theorem index_EdgePieces (p : Int) (h0 : 0 ≤ p) (h1 : p < 12) :
    index EdgePieces (p * 2) = .ok (edgeColour p 0) ∧
      index EdgePieces (p * 2 + 1) = .ok (edgeColour p 1) := by
  obtain ⟨n, rfl⟩ := Int.eq_ofNat_of_zero_le h0
  have hn : n < 12 := by omega
  have e0 : ((n : Int) * 2) = ((n * 2 : Nat) : Int) := by push_cast; ring
  have e1 : ((n : Int) * 2 + 1) = ((n * 2 + 1 : Nat) : Int) := by push_cast; ring
  have t : ((n : Int) * 2).toNat = n * 2 := by omega
  have hl : EdgePieces.length = 24 := by decide
  constructor
  · rw [e0, index_of_lt _ _ (by omega)]; simp only [edgeColour, t, Nat.add_zero]
  · rw [e1, index_of_lt _ _ (by omega)]; simp only [edgeColour, t]

theorem index_CornerPieces (p : Int) (h0 : 0 ≤ p) (h1 : p < 8) :
    index CornerPieces (p * 3) = .ok (cornerColour p 0) ∧
      index CornerPieces (p * 3 + 1) = .ok (cornerColour p 1) ∧
      index CornerPieces (p * 3 + 2) = .ok (cornerColour p 2) := by
  obtain ⟨n, rfl⟩ := Int.eq_ofNat_of_zero_le h0
  have hn : n < 8 := by omega
  have e0 : ((n : Int) * 3) = ((n * 3 : Nat) : Int) := by push_cast; ring
  have e1 : ((n : Int) * 3 + 1) = ((n * 3 + 1 : Nat) : Int) := by push_cast; ring
  have e2 : ((n : Int) * 3 + 2) = ((n * 3 + 2 : Nat) : Int) := by push_cast; ring
  have t : ((n : Int) * 3).toNat = n * 3 := by omega
  have hl : CornerPieces.length = 24 := by decide
  refine ⟨?_, ?_, ?_⟩
  · rw [e0, index_of_lt _ _ (by omega)]; simp only [cornerColour, t, Nat.add_zero]
  · rw [e1, index_of_lt _ _ (by omega)]; simp only [cornerColour, t]
  · rw [e2, index_of_lt _ _ (by omega)]; simp only [cornerColour, t]

theorem insertEdge_eq (res : StickerCube) (i : Fin 12) (piece : CubieEdge)
    (h0 : 0 ≤ piece.Piece) (h1 : piece.Piece < 12) :
    insertEdge res i piece =
      .ok (put (put res (edgePos i 0) (edgeImage piece).1) (edgePos i 1) (edgeImage piece).2) := by
  obtain ⟨p0, p1⟩ := index_EdgePieces piece.Piece h0 h1
  obtain ⟨d0, d1⟩ := index_EdgeIndexes i
  simp only [insertEdge, p0, p1, d0, d1, Outcome.ok_bind, write_pos, edgeImage]

theorem insertCorner_eq (res : StickerCube) (i : Fin 8) (piece : CubieCorner)
    (h0 : 0 ≤ piece.Piece) (h1 : piece.Piece < 8) :
    insertCorner res i piece =
      .ok (put (put (put res (cornerPos i 0) (cornerImage i piece).1)
        (cornerPos i 1) (cornerImage i piece).2.1) (cornerPos i 2) (cornerImage i piece).2.2) := by
  obtain ⟨p0, p1, p2⟩ := index_CornerPieces piece.Piece h0 h1
  obtain ⟨d0, d1, d2⟩ := index_CornerIndexes i
  simp only [insertCorner, p0, p1, p2, d0, d1, d2, Outcome.ok_bind, write_pos, cornerImage]

/-- On an in-range cubie cube the forward transform returns `image c`. -/
theorem StickerCube_eq_image (c : CubieCube) (h : InRange c) :
    CubieCube.StickerCube c = .ok (image c) := by
  unfold CubieCube.StickerCube
  rw [foldlM_ok _ _ _ (fun res i _ => insertEdge_eq res i (c.Edges i) (h.2 i).1 (h.2 i).2)]
  rw [Outcome.ok_bind]
  rw [foldlM_ok _ _ _ (fun res i _ => insertCorner_eq res i (c.Corners i) (h.1 i).1 (h.1 i).2)]
  rfl

/-- The image holds, at corner slot `i`, the colours computed for slot `i`
alone: no later write touches them. -/
theorem image_cornerPos (c : CubieCube) (i : Fin 8) :
    cornerStickers (image c) i = cornerImage i (c.Corners i) := by
  fin_cases i <;> rfl

/-- The image holds, at edge slot `i`, the colours computed for slot `i`
alone: no later write touches them. -/
theorem image_edgePos (c : CubieCube) (i : Fin 12) :
    edgeStickers (image c) i = edgeImage (c.Edges i) := by
  fin_cases i <;> rfl

/-! ### What `findCorner` and `findEdge` compute -/

theorem slice_CornerPieces :
    ∀ i : Fin 8, slice CornerPieces ((i.val : Int) * 3) ((i.val : Int) * 3 + 3) =
      .ok (cornerCanon i) := by
  decide

theorem slice_EdgePieces :
    ∀ i : Fin 12, slice EdgePieces ((i.val : Int) * 2) ((i.val : Int) * 2 + 2) =
      .ok (edgeCanon i) := by
  decide

theorem findCornerLoop_cons (t : Int × Int × Int) (i : Fin 8) (rest : List Int) :
    findCornerLoop t ((i.val : Int) :: rest) =
      if setsEqual (triple t) (cornerCanon i) then .ok ((i.val : Int), orientationOf t)
      else findCornerLoop t rest := by
  simp only [findCornerLoop, slice_CornerPieces i, orientationOf]
  cases setsEqual (triple t) (cornerCanon i) <;> simp

theorem findEdgeLoop_cons (t : Int × Int) (i : Fin 12) (rest : List Int) :
    findEdgeLoop t ((i.val : Int) :: rest) =
      if setsEqual (pair t) (edgeCanon i) then .ok ((i.val : Int), flipOf t)
      else findEdgeLoop t rest := by
  simp only [findEdgeLoop, slice_EdgePieces i, flipOf]
  cases setsEqual (pair t) (edgeCanon i) <;> simp

theorem findCornerLoop_map (t : Int × Int × Int) (l : List (Fin 8)) :
    findCornerLoop t (l.map fun i => (i.val : Int)) =
      match l.find? fun i => setsEqual (triple t) (cornerCanon i) with
      | some i => .ok ((i.val : Int), orientationOf t)
      | none => .err (cornerError t) := by
  induction l with
  | nil => rfl
  | cons i l ih =>
    rw [List.map_cons, findCornerLoop_cons, List.find?_cons]
    cases setsEqual (triple t) (cornerCanon i) <;> simp [ih]

theorem findEdgeLoop_map (t : Int × Int) (l : List (Fin 12)) :
    findEdgeLoop t (l.map fun i => (i.val : Int)) =
      match l.find? fun i => setsEqual (pair t) (edgeCanon i) with
      | some i => .ok ((i.val : Int), flipOf t)
      | none => .err (edgeError t) := by
  induction l with
  | nil => rfl
  | cons i l ih =>
    rw [List.map_cons, findEdgeLoop_cons, List.find?_cons]
    cases setsEqual (pair t) (edgeCanon i) <;> simp [ih]

/-- `findCorner` returns the first piece, in table order, that `setsEqual`
accepts, with the orientation read off the stickers; it fails when there is
none. -/
theorem findCorner_eq (t : Int × Int × Int) :
    findCorner t =
      match (List.finRange 8).find? fun i => setsEqual (triple t) (cornerCanon i) with
      | some i => .ok ((i.val : Int), orientationOf t)
      | none => .err (cornerError t) := by
  rw [← findCornerLoop_map]
  rfl

/-- `findEdge` returns the first piece, in table order, that `setsEqual`
accepts, with the flip read off the stickers; it fails when there is none. -/
theorem findEdge_eq (t : Int × Int) :
    findEdge t =
      match (List.finRange 12).find? fun i => setsEqual (pair t) (edgeCanon i) with
      | some i => .ok ((i.val : Int), flipOf t)
      | none => .err (edgeError t) := by
  rw [← findEdgeLoop_map]
  rfl

/-! ### What `setsEqual` computes -/

theorem listContains_iff (l : List Int) (x : Int) : listContains l x = true ↔ x ∈ l := by
  induction l with
  | nil => simp [listContains]
  | cons y l ih =>
    simp only [listContains, List.mem_cons]
    by_cases h : y = x
    · simp [h]
    · have h2 : ¬ x = y := fun e => h e.symm
      simp [h, h2, ih]

theorem setsEqualLoop_iff (a b : List Int) :
    setsEqualLoop a b = true ↔ ∀ x ∈ a, x ∈ b := by
  induction a with
  | nil => simp [setsEqualLoop]
  | cons y a ih =>
    simp only [setsEqualLoop, List.mem_cons, forall_eq_or_imp]
    cases h : listContains b y
    · have : ¬ y ∈ b := by rw [← listContains_iff, h]; simp
      simp [this]
    · have : y ∈ b := by rw [← listContains_iff, h]
      simp [this, ih]

/-- What `setsEqual` computes: equal lengths and every element of the first
list occurs in the second. -/
theorem setsEqual_iff (a b : List Int) :
    setsEqual a b = true ↔ a.length = b.length ∧ ∀ x ∈ a, x ∈ b := by
  unfold setsEqual
  by_cases h : a.length = b.length
  · simp [h, setsEqualLoop_iff]
  · simp [h]

/-! ### Identification when the sticker set is a piece's colour set -/

theorem cornerCanon_subset :
    ∀ p i : Fin 8, (∀ x ∈ cornerCanon p, x ∈ cornerCanon i) → i = p := by
  decide

theorem edgeCanon_subset :
    ∀ p i : Fin 12, (∀ x ∈ edgeCanon p, x ∈ edgeCanon i) → i = p := by
  decide

theorem find_unique_eight :
    ∀ p : Fin 8, (List.finRange 8).find? (fun i => decide (i = p)) = some p := by
  decide

theorem find_unique_twelve :
    ∀ p : Fin 12, (List.finRange 12).find? (fun i => decide (i = p)) = some p := by
  decide

theorem setsEqual_cornerCanon_of_sameSet (t : Int × Int × Int) (p : Fin 8)
    (h : SameSet (triple t) (cornerCanon p)) (i : Fin 8) :
    setsEqual (triple t) (cornerCanon i) = decide (i = p) := by
  by_cases hi : i = p
  · subst hi
    simp only [decide_True]
    rw [setsEqual_iff]
    exact ⟨rfl, h.1⟩
  · simp only [hi, decide_False]
    rw [Bool.eq_false_iff]
    intro he
    rw [setsEqual_iff] at he
    exact hi (cornerCanon_subset p i fun x hx => he.2 x (h.2 x hx))

theorem setsEqual_edgeCanon_of_sameSet (t : Int × Int) (p : Fin 12)
    (h : SameSet (pair t) (edgeCanon p)) (i : Fin 12) :
    setsEqual (pair t) (edgeCanon i) = decide (i = p) := by
  by_cases hi : i = p
  · subst hi
    simp only [decide_True]
    rw [setsEqual_iff]
    exact ⟨rfl, h.1⟩
  · simp only [hi, decide_False]
    rw [Bool.eq_false_iff]
    intro he
    rw [setsEqual_iff] at he
    exact hi (edgeCanon_subset p i fun x hx => he.2 x (h.2 x hx))

theorem findCorner_of_sameSet (t : Int × Int × Int) (p : Fin 8)
    (h : SameSet (triple t) (cornerCanon p)) :
    findCorner t = .ok ((p.val : Int), orientationOf t) := by
  rw [findCorner_eq, funext (setsEqual_cornerCanon_of_sameSet t p h), find_unique_eight]

theorem findEdge_of_sameSet (t : Int × Int) (p : Fin 12)
    (h : SameSet (pair t) (edgeCanon p)) :
    findEdge t = .ok ((p.val : Int), flipOf t) := by
  rw [findEdge_eq, funext (setsEqual_edgeCanon_of_sameSet t p h), find_unique_twelve]

/-! ### Round trip -/

/-- The inverse identification undoes the forward colouring of a corner slot. -/
theorem findCorner_cornerImage :
    ∀ (i q : Fin 8) (o : Fin 3),
      findCorner (cornerImage i ⟨(q.val : Int), (o.val : Int)⟩) =
        .ok ((q.val : Int), (o.val : Int)) := by
  decide

/-- The inverse identification undoes the forward colouring of an edge slot. -/
theorem findEdge_edgeImage :
    ∀ (q : Fin 12) (f : Bool),
      findEdge (edgeImage ⟨(q.val : Int), f⟩) = .ok ((q.val : Int), f) := by
  decide

/-- On the image of an in-range cubie cube with orientations 0, 1 or 2 the
inverse transform returns that cubie cube. -/
theorem CubieCube_image (c : CubieCube) (h : InRange c)
    (ho : ∀ i, (c.Corners i).Orientation = 0 ∨ (c.Corners i).Orientation = 1 ∨
      (c.Corners i).Orientation = 2) :
    StickerCube.CubieCube (image c) = .ok c := by
  have hc : ∀ i, findCorner (cornerStickers (image c) i) =
      .ok ((c.Corners i).Piece, (c.Corners i).Orientation) := by
    intro i
    rw [image_cornerPos]
    have hp := h.1 i
    have hoi := ho i
    generalize c.Corners i = piece at hp hoi
    obtain ⟨p, o⟩ := piece
    simp only at hp hoi
    obtain ⟨n, rfl⟩ := Int.eq_ofNat_of_zero_le hp.1
    have hn : n < 8 := by omega
    rcases hoi with rfl | rfl | rfl
    · exact findCorner_cornerImage i ⟨n, hn⟩ 0
    · exact findCorner_cornerImage i ⟨n, hn⟩ 1
    · exact findCorner_cornerImage i ⟨n, hn⟩ 2
  have he : ∀ i, findEdge (edgeStickers (image c) i) =
      .ok ((c.Edges i).Piece, (c.Edges i).Flip) := by
    intro i
    rw [image_edgePos]
    have hp := h.2 i
    generalize c.Edges i = piece at hp
    obtain ⟨p, f⟩ := piece
    simp only at hp
    obtain ⟨n, rfl⟩ := Int.eq_ofNat_of_zero_le hp.1
    have hn : n < 12 := by omega
    exact findEdge_edgeImage ⟨n, hn⟩ f
  rw [CubieCube_ok_of_slots (image c) _ _ hc he]

/-- Identities that are a permutation of `0..7` and of `0..11` are in range. -/
theorem inRange_of_perm (c : CubieCube)
    (hcp : (List.ofFn fun i => (c.Corners i).Piece).Perm [0, 1, 2, 3, 4, 5, 6, 7])
    (hep : (List.ofFn fun i => (c.Edges i).Piece).Perm
      [0, 1, 2, 3, 4, 5, 6, 7, 8, 9, 10, 11]) :
    InRange c := by
  constructor
  · intro i
    have hm : (c.Corners i).Piece ∈ List.ofFn fun i => (c.Corners i).Piece :=
      (List.mem_ofFn _ _).2 ⟨i, rfl⟩
    have hm2 := hcp.mem_iff.1 hm
    simp only [List.mem_cons, List.mem_singleton, List.not_mem_nil, or_false] at hm2
    omega
  · intro i
    have hm : (c.Edges i).Piece ∈ List.ofFn fun i => (c.Edges i).Piece :=
      (List.mem_ofFn _ _).2 ⟨i, rfl⟩
    have hm2 := hep.mem_iff.1 hm
    simp only [List.mem_cons, List.mem_singleton, List.not_mem_nil, or_false] at hm2
    omega

/-! ### Positions written and colours produced by the forward transform -/

theorem logWrite_pos (log : List Int) (k : Fin 54) :
    logWrite log (k.val : Int) = .ok (log ++ [(k.val : Int)]) := by
  have h : 0 ≤ (k.val : Int) ∧ (k.val : Int) < 54 := by omega
  simp only [logWrite, h, and_self, if_true]

theorem insertEdgeLog_eq (log : List Int) (i : Fin 12) (piece : CubieEdge)
    (h0 : 0 ≤ piece.Piece) (h1 : piece.Piece < 12) :
    insertEdgeLog log i piece =
      .ok (log ++ [((edgePos i 0).val : Int)] ++ [((edgePos i 1).val : Int)]) := by
  obtain ⟨p0, p1⟩ := index_EdgePieces piece.Piece h0 h1
  obtain ⟨d0, d1⟩ := index_EdgeIndexes i
  simp only [insertEdgeLog, p0, p1, d0, d1, Outcome.ok_bind, logWrite_pos]

theorem insertCornerLog_eq (log : List Int) (i : Fin 8) (piece : CubieCorner)
    (h0 : 0 ≤ piece.Piece) (h1 : piece.Piece < 8) :
    insertCornerLog log i piece =
      .ok (log ++ [((cornerPos i 0).val : Int)] ++ [((cornerPos i 1).val : Int)] ++
        [((cornerPos i 2).val : Int)]) := by
  obtain ⟨p0, p1, p2⟩ := index_CornerPieces piece.Piece h0 h1
  obtain ⟨d0, d1, d2⟩ := index_CornerIndexes i
  simp only [insertCornerLog, p0, p1, p2, d0, d1, d2, Outcome.ok_bind, logWrite_pos]

/-- On an in-range cubie cube the forward transform assigns to the entries
of `EdgeIndexes` and then to the entries of `CornerIndexes`, each once, in
table order. -/
theorem StickerCubeWrites_eq (c : CubieCube) (h : InRange c) :
    CubieCube.StickerCubeWrites c = .ok (EdgeIndexes ++ CornerIndexes) := by
  unfold CubieCube.StickerCubeWrites
  rw [foldlM_ok _ _ _ (fun log i _ => insertEdgeLog_eq log i (c.Edges i) (h.2 i).1 (h.2 i).2)]
  rw [Outcome.ok_bind]
  rw [foldlM_ok _ _ _
    (fun log i _ => insertCornerLog_eq log i (c.Corners i) (h.1 i).1 (h.1 i).2)]
  rfl

theorem cornerImage_colours :
    ∀ (i q : Fin 8) (o : Fin 3),
      (1 ≤ (cornerImage i ⟨(q.val : Int), (o.val : Int)⟩).1 ∧
        (cornerImage i ⟨(q.val : Int), (o.val : Int)⟩).1 ≤ 6) ∧
      (1 ≤ (cornerImage i ⟨(q.val : Int), (o.val : Int)⟩).2.1 ∧
        (cornerImage i ⟨(q.val : Int), (o.val : Int)⟩).2.1 ≤ 6) ∧
      (1 ≤ (cornerImage i ⟨(q.val : Int), (o.val : Int)⟩).2.2 ∧
        (cornerImage i ⟨(q.val : Int), (o.val : Int)⟩).2.2 ≤ 6) := by
  decide

theorem edgeImage_colours :
    ∀ (q : Fin 12) (f : Bool),
      (1 ≤ (edgeImage ⟨(q.val : Int), f⟩).1 ∧ (edgeImage ⟨(q.val : Int), f⟩).1 ≤ 6) ∧
      (1 ≤ (edgeImage ⟨(q.val : Int), f⟩).2 ∧ (edgeImage ⟨(q.val : Int), f⟩).2 ≤ 6) := by
  decide

/-- Every position other than the six centres is a sticker of a corner slot
or of an edge slot. -/
theorem noncentre_in_slot :
    ∀ k : Fin 54, k.val % 9 ≠ 4 →
      (∃ i j, k = cornerPos i j) ∨ (∃ i j, k = edgePos i j) := by
  decide

/-- Colours of the image of an in-range cubie cube with orientations 0, 1
or 2: every non-centre position holds a colour in `1..6`. -/
theorem image_colours (c : CubieCube) (h : InRange c)
    (ho : ∀ i, (c.Corners i).Orientation = 0 ∨ (c.Corners i).Orientation = 1 ∨
      (c.Corners i).Orientation = 2)
    (k : Fin 54) (hk : k.val % 9 ≠ 4) : 1 ≤ image c k ∧ image c k ≤ 6 := by
  rcases noncentre_in_slot k hk with ⟨i, j, rfl⟩ | ⟨i, j, rfl⟩
  · have hs := image_cornerPos c i
    have hp := h.1 i
    have hoi := ho i
    have hcol : (1 ≤ (cornerImage i (c.Corners i)).1 ∧ (cornerImage i (c.Corners i)).1 ≤ 6) ∧
        (1 ≤ (cornerImage i (c.Corners i)).2.1 ∧ (cornerImage i (c.Corners i)).2.1 ≤ 6) ∧
        (1 ≤ (cornerImage i (c.Corners i)).2.2 ∧ (cornerImage i (c.Corners i)).2.2 ≤ 6) := by
      generalize c.Corners i = piece at hp hoi
      obtain ⟨p, o⟩ := piece
      simp only at hp hoi
      obtain ⟨n, rfl⟩ := Int.eq_ofNat_of_zero_le hp.1
      have hn : n < 8 := by omega
      rcases hoi with rfl | rfl | rfl
      · exact cornerImage_colours i ⟨n, hn⟩ 0
      · exact cornerImage_colours i ⟨n, hn⟩ 1
      · exact cornerImage_colours i ⟨n, hn⟩ 2
    rw [← hs] at hcol
    fin_cases j
    · exact hcol.1
    · exact hcol.2.1
    · exact hcol.2.2
  · have hs := image_edgePos c i
    have hp := h.2 i
    have hcol : (1 ≤ (edgeImage (c.Edges i)).1 ∧ (edgeImage (c.Edges i)).1 ≤ 6) ∧
        (1 ≤ (edgeImage (c.Edges i)).2 ∧ (edgeImage (c.Edges i)).2 ≤ 6) := by
      generalize c.Edges i = piece at hp
      obtain ⟨p, f⟩ := piece
      simp only at hp
      obtain ⟨n, rfl⟩ := Int.eq_ofNat_of_zero_le hp.1
      have hn : n < 12 := by omega
      exact edgeImage_colours ⟨n, hn⟩ f
    rw [← hs] at hcol
    fin_cases j
    · exact hcol.1
    · exact hcol.2

/-- The forward transform leaves the six centre stickers as the solved
template has them. -/
theorem image_centre (c : CubieCube) :
    ∀ k : Fin 54, k.val % 9 = 4 → image c k = SolvedStickerCube k := by
  intro k hk
  have hk2 : k = 4 ∨ k = 13 ∨ k = 22 ∨ k = 31 ∨ k = 40 ∨ k = 49 := by
    revert hk
    revert k
    decide
  rcases hk2 with rfl | rfl | rfl | rfl | rfl | rfl <;> rfl

/-! ### Acceptance and rejection of a slot -/

/-- The message names the three stickers in slot order. -/
theorem cornerError_example : cornerError (7, 1, 7) = "unrecognized corner: 7,1,7" := by
  decide

/-- `findCorner` never panics: it accepts, or returns its error for the
stickers. -/
theorem findCorner_ok_or_err (t : Int × Int × Int) :
    (∃ v, findCorner t = .ok v) ∨ findCorner t = .err (cornerError t) := by
  rw [findCorner_eq]
  cases (List.finRange 8).find? fun i => setsEqual (triple t) (cornerCanon i) with
  | none => exact Or.inr rfl
  | some i => exact Or.inl ⟨_, rfl⟩

/-- `findEdge` never panics: it accepts, or returns its error for the
stickers. -/
theorem findEdge_ok_or_err (t : Int × Int) :
    (∃ v, findEdge t = .ok v) ∨ findEdge t = .err (edgeError t) := by
  rw [findEdge_eq]
  cases (List.finRange 12).find? fun i => setsEqual (pair t) (edgeCanon i) with
  | none => exact Or.inr rfl
  | some i => exact Or.inl ⟨_, rfl⟩

/-- `findCorner` accepts exactly the triples all of whose colours are colours
of one corner piece. -/
theorem findCorner_ok_iff (t : Int × Int × Int) :
    (∃ v, findCorner t = .ok v) ↔ ∃ p : Fin 8, ∀ x ∈ triple t, x ∈ cornerCanon p := by
  rw [findCorner_eq]
  constructor
  · intro h
    cases hf : (List.finRange 8).find? fun i => setsEqual (triple t) (cornerCanon i) with
    | none =>
      rw [hf] at h
      obtain ⟨v, hv⟩ := h
      cases hv
    | some i =>
      have hi := List.find?_some hf
      exact ⟨i, ((setsEqual_iff _ _).1 hi).2⟩
  · rintro ⟨p, hp⟩
    cases hf : (List.finRange 8).find? fun i => setsEqual (triple t) (cornerCanon i) with
    | none =>
      have hn := List.find?_eq_none.1 hf p (List.mem_finRange p)
      exact absurd ((setsEqual_iff (triple t) (cornerCanon p)).2 ⟨rfl, hp⟩) hn
    | some i => exact ⟨_, rfl⟩

/-- `findEdge` accepts exactly the pairs both of whose colours are colours of
one edge piece. -/
theorem findEdge_ok_iff (t : Int × Int) :
    (∃ v, findEdge t = .ok v) ↔ ∃ p : Fin 12, ∀ x ∈ pair t, x ∈ edgeCanon p := by
  rw [findEdge_eq]
  constructor
  · intro h
    cases hf : (List.finRange 12).find? fun i => setsEqual (pair t) (edgeCanon i) with
    | none =>
      rw [hf] at h
      obtain ⟨v, hv⟩ := h
      cases hv
    | some i =>
      have hi := List.find?_some hf
      exact ⟨i, ((setsEqual_iff _ _).1 hi).2⟩
  · rintro ⟨p, hp⟩
    cases hf : (List.finRange 12).find? fun i => setsEqual (pair t) (edgeCanon i) with
    | none =>
      have hn := List.find?_eq_none.1 hf p (List.mem_finRange p)
      exact absurd ((setsEqual_iff (pair t) (edgeCanon p)).2 ⟨rfl, hp⟩) hn
    | some i => exact ⟨_, rfl⟩

theorem findCorner_err_of_not_accepted (s : StickerCube) (i : Fin 8)
    (h : ¬ CornerAccepted s i) :
    findCorner (cornerStickers s i) = .err (cornerError (cornerStickers s i)) :=
  (findCorner_ok_or_err _).resolve_left h

theorem findEdge_err_of_not_accepted (s : StickerCube) (i : Fin 12)
    (h : ¬ EdgeAccepted s i) :
    findEdge (edgeStickers s i) = .err (edgeError (edgeStickers s i)) :=
  (findEdge_ok_or_err _).resolve_left h

/-! ### Loops that stop at the first error -/

/-- A loop whose every step returns normally returns normally. -/
theorem foldlM_all_ok {α β : Type} (f : β → α → Outcome β) (l : List α)
    (h : ∀ a ∈ l, ∀ b, ∃ b2, f b a = .ok b2) (b : β) :
    ∃ b2, l.foldlM f b = .ok b2 := by
  induction l generalizing b with
  | nil => exact ⟨b, rfl⟩
  | cons a l ih =>
    obtain ⟨b1, hb1⟩ := h a (List.mem_cons_self a l) b
    simp only [List.foldlM_cons, hb1, Outcome.ok_bind]
    exact ih (fun x hx => h x (List.mem_cons_of_mem a hx)) b1

/-- A loop returns the error of the first step that fails. -/
theorem foldlM_first_err {α β : Type} (f : β → α → Outcome β) (l1 l2 : List α) (a : α)
    (m : String) (hok : ∀ x ∈ l1, ∀ b, ∃ b2, f b x = .ok b2) (herr : ∀ b, f b a = .err m)
    (b : β) :
    (l1 ++ a :: l2).foldlM f b = .err m := by
  induction l1 generalizing b with
  | nil => simp only [List.nil_append, List.foldlM_cons, herr, Outcome.err_bind]
  | cons x l1 ih =>
    obtain ⟨b1, hb1⟩ := hok x (List.mem_cons_self x l1) b
    simp only [List.cons_append, List.foldlM_cons, hb1, Outcome.ok_bind]
    exact ih (fun y hy => hok y (List.mem_cons_of_mem x hy)) b1

theorem finRange_eight_split :
    ∀ i : Fin 8, List.finRange 8 =
      (List.finRange 8).filter (fun j => decide (j < i)) ++
        i :: (List.finRange 8).filter (fun j => decide (i < j)) := by
  decide

theorem finRange_twelve_split :
    ∀ i : Fin 12, List.finRange 12 =
      (List.finRange 12).filter (fun j => decide (j < i)) ++
        i :: (List.finRange 12).filter (fun j => decide (i < j)) := by
  decide

theorem translateCorner_ok (s : StickerCube) (i : Fin 8) (h : CornerAccepted s i)
    (r : CubieCube) : ∃ r2, translateCorner s r i = .ok r2 := by
  obtain ⟨v, hv⟩ := h
  rw [translateCorner_eq, hv]
  exact ⟨_, rfl⟩

theorem translateEdge_ok (s : StickerCube) (i : Fin 12) (h : EdgeAccepted s i)
    (r : CubieCube) : ∃ r2, translateEdge s r i = .ok r2 := by
  obtain ⟨v, hv⟩ := h
  rw [translateEdge_eq, hv]
  exact ⟨_, rfl⟩

/-- The corner loop fails with the error of the lowest-indexed rejected
corner slot. -/
theorem cornerLoop_err (s : StickerCube) (i : Fin 8) (h : FirstRejectedCorner s i)
    (r : CubieCube) :
    (List.finRange 8).foldlM (translateCorner s) r =
      .err (cornerError (cornerStickers s i)) := by
  rw [finRange_eight_split i]
  apply foldlM_first_err
  · intro x hx b
    have hlt : x < i := by simpa using (List.mem_filter.1 hx).2
    exact translateCorner_ok s x (h.1 x hlt) b
  · intro b
    rw [translateCorner_eq, findCorner_err_of_not_accepted s i h.2]
    rfl

/-- The edge loop fails with the error of the lowest-indexed rejected edge
slot. -/
theorem edgeLoop_err (s : StickerCube) (i : Fin 12) (h : FirstRejectedEdge s i)
    (r : CubieCube) :
    (List.finRange 12).foldlM (translateEdge s) r =
      .err (edgeError (edgeStickers s i)) := by
  rw [finRange_twelve_split i]
  apply foldlM_first_err
  · intro x hx b
    have hlt : x < i := by simpa using (List.mem_filter.1 hx).2
    exact translateEdge_ok s x (h.1 x hlt) b
  · intro b
    rw [translateEdge_eq, findEdge_err_of_not_accepted s i h.2]
    rfl

/-- A rejected corner slot: the inverse transform returns the error of the
lowest-indexed one, whatever the edges. -/
theorem CubieCube_err_corner (s : StickerCube) (i : Fin 8) (h : FirstRejectedCorner s i) :
    StickerCube.CubieCube s = .err (cornerError (cornerStickers s i)) := by
  unfold StickerCube.CubieCube
  rw [cornerLoop_err s i h]
  rfl

/-- All corner slots accepted and an edge slot rejected: the inverse transform
returns the error of the lowest-indexed rejected edge slot. -/
theorem CubieCube_err_edge (s : StickerCube) (i : Fin 12)
    (hc : ∀ j, CornerAccepted s j) (h : FirstRejectedEdge s i) :
    StickerCube.CubieCube s = .err (edgeError (edgeStickers s i)) := by
  unfold StickerCube.CubieCube
  obtain ⟨r, hr⟩ := foldlM_all_ok (translateCorner s) (List.finRange 8)
    (fun j _ b => translateCorner_ok s j (hc j) b) CubieCube.zero
  rw [hr, Outcome.ok_bind, edgeLoop_err s i h]

/-- All slots accepted: the inverse transform returns a cubie cube. -/
theorem CubieCube_ok_of_accepted (s : StickerCube)
    (hc : ∀ j, CornerAccepted s j) (he : ∀ j, EdgeAccepted s j) :
    ∃ c, StickerCube.CubieCube s = .ok c := by
  unfold StickerCube.CubieCube
  obtain ⟨r, hr⟩ := foldlM_all_ok (translateCorner s) (List.finRange 8)
    (fun j _ b => translateCorner_ok s j (hc j) b) CubieCube.zero
  rw [hr, Outcome.ok_bind]
  exact foldlM_all_ok (translateEdge s) (List.finRange 12)
    (fun j _ b => translateEdge_ok s j (he j) b) r

/-- A rejected corner slot has a lowest-indexed one. -/
theorem exists_firstRejectedCorner (s : StickerCube) (h : ∃ i, ¬ CornerAccepted s i) :
    ∃ i, FirstRejectedCorner s i := by
  obtain ⟨i, hi, hmin⟩ := wellFounded_lt.has_min (setOf fun i => ¬ CornerAccepted s i) h
  refine ⟨i, fun j hj => ?_, hi⟩
  by_contra hn
  exact hmin j hn hj

/-- A rejected edge slot has a lowest-indexed one. -/
theorem exists_firstRejectedEdge (s : StickerCube) (h : ∃ i, ¬ EdgeAccepted s i) :
    ∃ i, FirstRejectedEdge s i := by
  obtain ⟨i, hi, hmin⟩ := wellFounded_lt.has_min (setOf fun i => ¬ EdgeAccepted s i) h
  refine ⟨i, fun j hj => ?_, hi⟩
  by_contra hn
  exact hmin j hn hj

/-- The three ways the inverse transform can end. -/
theorem CubieCube_cases (s : StickerCube) :
    (∃ i, FirstRejectedCorner s i ∧
      StickerCube.CubieCube s = .err (cornerError (cornerStickers s i))) ∨
    ((∀ j, CornerAccepted s j) ∧ ∃ i, FirstRejectedEdge s i ∧
      StickerCube.CubieCube s = .err (edgeError (edgeStickers s i))) ∨
    ((∀ j, CornerAccepted s j) ∧ (∀ j, EdgeAccepted s j) ∧
      ∃ c, StickerCube.CubieCube s = .ok c) := by
  by_cases hc : ∀ j, CornerAccepted s j
  · by_cases he : ∀ j, EdgeAccepted s j
    · exact Or.inr (Or.inr ⟨hc, he, CubieCube_ok_of_accepted s hc he⟩)
    · obtain ⟨i, hi⟩ := exists_firstRejectedEdge s (not_forall.1 he)
      exact Or.inr (Or.inl ⟨hc, i, hi, CubieCube_err_edge s i hc hi⟩)
  · obtain ⟨i, hi⟩ := exists_firstRejectedCorner s (not_forall.1 hc)
    exact Or.inl ⟨i, hi, CubieCube_err_corner s i hi⟩

/-! ### Orientation read off the stickers -/

/-- What `findCorner` returns as orientation is `orientationOf` of the
stickers. -/
theorem findCorner_orientation (t : Int × Int × Int) (v : Int × Int)
    (h : findCorner t = .ok v) : v.2 = orientationOf t := by
  rw [findCorner_eq] at h
  cases hf : (List.finRange 8).find? fun i => setsEqual (triple t) (cornerCanon i) with
  | none =>
    rw [hf] at h
    cases h
  | some i =>
    rw [hf] at h
    cases h
    rfl

/-- With a reference colour among the stickers the orientation is its index. -/
theorem orientationOf_range (t : Int × Int × Int) (h : 1 ∈ triple t ∨ 2 ∈ triple t) :
    orientationOf t = 0 ∨ orientationOf t = 1 ∨ orientationOf t = 2 := by
  obtain ⟨a, b, c⟩ := t
  simp only [triple, List.mem_cons, List.mem_singleton, List.not_mem_nil, or_false] at h
  simp only [orientationOf, listIndex, listIndexFrom, triple]
  by_cases ha : a = 1
  · simp [ha]
  by_cases hb : b = 1
  · simp [ha, hb]
  by_cases hc : c = 1
  · simp [ha, hb, hc]
  by_cases ha2 : a = 2
  · simp [ha, hb, hc, ha2]
  by_cases hb2 : b = 2
  · simp [ha, hb, hc, ha2, hb2]
  by_cases hc2 : c = 2
  · simp [ha, hb, hc, ha2, hb2, hc2]
  omega

/-- Without a reference colour among the stickers the orientation is the
not-found value of `listIndex`. -/
theorem orientationOf_missing (t : Int × Int × Int) (h1 : 1 ∉ triple t)
    (h2 : 2 ∉ triple t) : orientationOf t = -1 := by
  obtain ⟨a, b, c⟩ := t
  simp only [triple, List.mem_cons, List.mem_singleton, List.not_mem_nil, or_false,
    not_or] at h1 h2
  obtain ⟨ha1, hb1, hc1⟩ := h1
  obtain ⟨ha2, hb2, hc2⟩ := h2
  have e1 : ¬ a = 1 := fun e => ha1 e.symm
  have e2 : ¬ b = 1 := fun e => hb1 e.symm
  have e3 : ¬ c = 1 := fun e => hc1 e.symm
  have e4 : ¬ a = 2 := fun e => ha2 e.symm
  have e5 : ¬ b = 2 := fun e => hb2 e.symm
  have e6 : ¬ c = 2 := fun e => hc2 e.symm
  simp [orientationOf, listIndex, listIndexFrom, triple, e1, e2, e3, e4, e5, e6]

theorem cornerCanon_reference : ∀ q : Fin 8, 1 ∈ cornerCanon q ∨ 2 ∈ cornerCanon q := by
  decide

/-! ### The forward colouring in the words of the specification -/

theorem twist_eq_spec (piece : CubieCorner) (i : Int) (c : Int × Int × Int) :
    twist piece i c = specReorder piece.Orientation (specSwap piece.Piece i c) := by
  simp only [twist, oddCoset, specReorder, specSwap, List.mem_cons, List.mem_singleton,
    List.not_mem_nil, or_false, decide_eq_true_eq]

theorem swap_iff_oddBits :
    ∀ p i : Fin 8, (Int.land (Int.xor p.val i.val) 7 ∈ ([1, 2, 4, 7] : List Int) ↔
      oddBits (Int.xor p.val i.val)) := by
  decide

/-! ### The inverse transform reads the slots only -/

theorem cornerPos_noncentre :
    ∀ (i : Fin 8) (j : Fin 3), (cornerPos i j).val ∉ [4, 13, 22, 31, 40, 49] := by
  decide

theorem edgePos_noncentre :
    ∀ (i : Fin 12) (j : Fin 2), (edgePos i j).val ∉ [4, 13, 22, 31, 40, 49] := by
  decide

/-- The inverse transform depends on the stickers of the 20 slots only. -/
theorem CubieCube_congr (s s2 : StickerCube)
    (hc : ∀ i, cornerStickers s i = cornerStickers s2 i)
    (he : ∀ i, edgeStickers s i = edgeStickers s2 i) :
    StickerCube.CubieCube s = StickerCube.CubieCube s2 := by
  have h1 : translateCorner s = translateCorner s2 := by
    funext r i
    rw [translateCorner_eq, translateCorner_eq, hc]
  have h2 : translateEdge s = translateEdge s2 := by
    funext r i
    rw [translateEdge_eq, translateEdge_eq, he]
  unfold StickerCube.CubieCube
  rw [h1, h2]

/-! ### The solved cube -/

/-- On the solved sticker cube the inverse transform returns the cubie cube
holding piece `i` in every slot `i`, every corner with orientation 1 and no
edge flipped. -/
theorem CubieCube_solved :
    StickerCube.CubieCube SolvedStickerCube = .ok (homeCube 1) :=
  CubieCube_ok_of_slots SolvedStickerCube (fun i => ((i.val : Int), 1))
    (fun i => ((i.val : Int), false)) (by decide) (by decide)

/-! ## The claims -/

/-- C1: round trip cubie → sticker → cubie.  For every cubie cube whose 8
corner identities are a permutation of 0..7, whose 12 edge identities are a
permutation of 0..11 and whose corner orientations are 0, 1 or 2 (flips
arbitrary), `StickerCube` returns a sticker cube on which `CubieCube` returns
no error and the very cubie cube we started from: every corner identity,
corner orientation, edge identity and edge flip is the same. -/
theorem roundtrip_cubie_sticker_cubie (c : CubieCube)
    (hcp : (List.ofFn fun i => (c.Corners i).Piece).Perm [0, 1, 2, 3, 4, 5, 6, 7])
    (hep : (List.ofFn fun i => (c.Edges i).Piece).Perm
      [0, 1, 2, 3, 4, 5, 6, 7, 8, 9, 10, 11])
    (ho : ∀ i, (c.Corners i).Orientation = 0 ∨ (c.Corners i).Orientation = 1 ∨
      (c.Corners i).Orientation = 2) :
    ∃ s, CubieCube.StickerCube c = .ok s ∧ StickerCube.CubieCube s = .ok c :=
  ⟨image c, StickerCube_eq_image c (inRange_of_perm c hcp hep),
    CubieCube_image c (inRange_of_perm c hcp hep) ho⟩

/-- The round trip of C1 at the cube `scrambled`. -/
theorem roundtrip_cubie_sticker_cubie_witness :
    (List.ofFn fun i => (scrambled.Corners i).Piece).Perm [0, 1, 2, 3, 4, 5, 6, 7] ∧
    (List.ofFn fun i => (scrambled.Edges i).Piece).Perm
      [0, 1, 2, 3, 4, 5, 6, 7, 8, 9, 10, 11] ∧
    ∃ s, CubieCube.StickerCube scrambled = .ok s ∧
      StickerCube.CubieCube s = .ok scrambled :=
  ⟨by decide, by decide,
    roundtrip_cubie_sticker_cubie scrambled (by decide) (by decide) (by decide)⟩

/-- C2 as stated fails: on the solved sticker cube `CubieCube` succeeds and
records orientation 1 in corner slot 0, so it is not the case that it
succeeds with `Piece = i` and `Orientation = 0` in every corner slot `i`. -/
theorem solved_corners_orientation_not_zero :
    (∃ c, StickerCube.CubieCube SolvedStickerCube = .ok c ∧
      (c.Corners 0).Orientation = 1) ∧
    ¬ (∃ c, StickerCube.CubieCube SolvedStickerCube = .ok c ∧
      ∀ i : Fin 8, (c.Corners i).Piece = (i.val : Int) ∧ (c.Corners i).Orientation = 0) := by
  refine ⟨⟨_, CubieCube_solved, rfl⟩, ?_⟩
  rintro ⟨c, hc, h⟩
  rw [CubieCube_solved] at hc
  have e : homeCube 1 = c := Outcome.ok.inj hc
  have h0 := (h 0).2
  rw [← e] at h0
  exact absurd h0 (by decide)

/-- C2, amended: solved-state corners.  On the solved sticker cube (face `k`
occupies positions `9k .. 9k+8` and is uniformly colour `k + 1`) `CubieCube`
succeeds and every corner slot `i` in 0..7 has `Piece = i` and
`Orientation = 1`. -/
theorem solved_corners_orientation_one :
    ∃ c, StickerCube.CubieCube SolvedStickerCube = .ok c ∧
      ∀ i : Fin 8, (c.Corners i).Piece = (i.val : Int) ∧ (c.Corners i).Orientation = 1 := by
  refine ⟨_, rfl, ?_⟩
  decide

/-- C3: solved-state edges.  On the solved sticker cube `CubieCube` returns a
cubie cube in which every edge slot `i` in 0..11 has `Piece = i` and
`Flip = false`. -/
theorem solved_edges_identity :
    ∃ c, StickerCube.CubieCube SolvedStickerCube = .ok c ∧
      ∀ i : Fin 12, (c.Edges i).Piece = (i.val : Int) ∧ (c.Edges i).Flip = false := by
  refine ⟨_, rfl, ?_⟩
  decide

/-- C4, evaluated on the code: `CubieCube` succeeds on the solved cube; the
triple (1, 1, 1) is, as a set, the colour set of no corner piece; yet with
corner slot 0 overwritten by (1, 1, 1) `CubieCube` returns no error but a
cubie cube holding piece 2 with orientation 0 in slot 0. -/
theorem corrupted_corner_accepted :
    (∃ c, StickerCube.CubieCube SolvedStickerCube = .ok c) ∧
    (∀ p : Fin 8, ¬ SameSet (triple (1, 1, 1)) (cornerCanon p)) ∧
    ∃ c, StickerCube.CubieCube (overwriteCorner SolvedStickerCube 0 (1, 1, 1)) = .ok c ∧
      c.Corners 0 = ⟨2, 0⟩ := by
  refine ⟨⟨_, rfl⟩, by decide, _, rfl, ?_⟩
  decide

/-- C5, evaluated on the code: `CubieCube` succeeds on the solved cube; the
pair (1, 1) is, as a set, the colour set of no edge piece; yet with edge
slot 0 overwritten by (1, 1) `CubieCube` returns no error but a cubie cube
holding piece 0, flipped, in slot 0. -/
theorem corrupted_edge_accepted :
    (∃ c, StickerCube.CubieCube SolvedStickerCube = .ok c) ∧
    (∀ p : Fin 12, ¬ SameSet (pair (1, 1)) (edgeCanon p)) ∧
    ∃ c, StickerCube.CubieCube (overwriteEdge SolvedStickerCube 0 (1, 1)) = .ok c ∧
      c.Edges 0 = ⟨0, true⟩ := by
  refine ⟨⟨_, rfl⟩, by decide, _, rfl, ?_⟩
  decide

/-- C6: identification of well-formed cubes.  If the three stickers of every
corner slot are, as an unordered set, the canonical colours of some corner
piece, and the two stickers of every edge slot are, as an unordered set, the
canonical colours of some edge piece, then `CubieCube` returns no error, and
the identity it records in a slot is `p` exactly when the canonical colour
set of piece `p` equals the sticker set of that slot: it is the unique such
piece, the 8 corner colour sets being pairwise distinct, as are the 12 edge
colour sets. -/
theorem identification_of_wellformed (s : StickerCube)
    (hc : ∀ i : Fin 8, ∃ p : Fin 8, SameSet (triple (cornerStickers s i)) (cornerCanon p))
    (he : ∀ i : Fin 12, ∃ p : Fin 12, SameSet (pair (edgeStickers s i)) (edgeCanon p)) :
    (∃ c, StickerCube.CubieCube s = .ok c ∧
      (∀ i p : Fin 8, (c.Corners i).Piece = (p.val : Int) ↔
        SameSet (triple (cornerStickers s i)) (cornerCanon p)) ∧
      (∀ i p : Fin 12, (c.Edges i).Piece = (p.val : Int) ↔
        SameSet (pair (edgeStickers s i)) (edgeCanon p))) ∧
    (∀ p q : Fin 8, SameSet (cornerCanon p) (cornerCanon q) → p = q) ∧
    (∀ p q : Fin 12, SameSet (edgeCanon p) (edgeCanon q) → p = q) := by
  choose pc hpc using hc
  choose pe hpe using he
  refine ⟨⟨_, CubieCube_ok_of_slots s
    (fun i => (((pc i).val : Int), orientationOf (cornerStickers s i)))
    (fun i => (((pe i).val : Int), flipOf (edgeStickers s i)))
    (fun i => findCorner_of_sameSet _ _ (hpc i))
    (fun i => findEdge_of_sameSet _ _ (hpe i)), ?_, ?_⟩, ?_, ?_⟩
  · intro i p
    constructor
    · intro hp
      have hp2 : ((pc i).val : Int) = (p.val : Int) := hp
      have e : pc i = p := Fin.ext (by exact_mod_cast hp2)
      rw [← e]
      exact hpc i
    · intro hp
      have e : pc i = p :=
        cornerCanon_subset p (pc i) fun x hx => (hpc i).1 x (hp.2 x hx)
      rw [← e]
  · intro i p
    constructor
    · intro hp
      have hp2 : ((pe i).val : Int) = (p.val : Int) := hp
      have e : pe i = p := Fin.ext (by exact_mod_cast hp2)
      rw [← e]
      exact hpe i
    · intro hp
      have e : pe i = p :=
        edgeCanon_subset p (pe i) fun x hx => (hpe i).1 x (hp.2 x hx)
      rw [← e]
  · intro p q h
    exact (cornerCanon_subset p q h.1).symm
  · intro p q h
    exact (edgeCanon_subset p q h.1).symm

/-- The identification of C6 on the solved sticker cube. -/
theorem identification_of_wellformed_witness :
    (∀ i : Fin 8, ∃ p : Fin 8,
      SameSet (triple (cornerStickers SolvedStickerCube i)) (cornerCanon p)) ∧
    (∀ i : Fin 12, ∃ p : Fin 12,
      SameSet (pair (edgeStickers SolvedStickerCube i)) (edgeCanon p)) ∧
    ∃ c, StickerCube.CubieCube SolvedStickerCube = .ok c ∧
      (∀ i p : Fin 8, (c.Corners i).Piece = (p.val : Int) ↔
        SameSet (triple (cornerStickers SolvedStickerCube i)) (cornerCanon p)) ∧
      (∀ i p : Fin 12, (c.Edges i).Piece = (p.val : Int) ↔
        SameSet (pair (edgeStickers SolvedStickerCube i)) (edgeCanon p)) :=
  ⟨by decide, by decide,
    (identification_of_wellformed SolvedStickerCube (by decide) (by decide)).1⟩

/-- C7 as stated fails: it is not the case that every one of the 54 sticker
positions occurs exactly once in the concatenation of `CornerIndexes` and
`EdgeIndexes`; the centre position 4 does not occur at all and the
concatenation has 48 entries. -/
theorem slot_coverage_misses_centres :
    ¬ (∀ k : Fin 54, List.count (k.val : Int) (CornerIndexes ++ EdgeIndexes) = 1) ∧
    List.count (4 : Int) (CornerIndexes ++ EdgeIndexes) = 0 ∧
    (CornerIndexes ++ EdgeIndexes).length = 48 := by
  decide

/-- C7, amended: every sticker position other than the six centres 4, 13,
22, 31, 40, 49 occurs exactly once in the concatenation of `CornerIndexes` and
`EdgeIndexes` and a centre position does not occur in it; every entry of the
two tables is a position in 0..53; and so the forward transform, run on a cubie
cube with identities in range, assigns to each non-centre position exactly
once and never to a centre position, which keeps the colour of the solved
template. -/
theorem slot_coverage_noncentre (c : CubieCube) (h : InRange c) :
    (∀ k : Fin 54, List.count (k.val : Int) (CornerIndexes ++ EdgeIndexes) =
      if k.val % 9 = 4 then 0 else 1) ∧
    (∀ x ∈ CornerIndexes ++ EdgeIndexes, 0 ≤ x ∧ x < 54) ∧
    (∃ w, CubieCube.StickerCubeWrites c = .ok w ∧
      ∀ k : Fin 54, List.count (k.val : Int) w = if k.val % 9 = 4 then 0 else 1) ∧
    ∃ s, CubieCube.StickerCube c = .ok s ∧
      ∀ k : Fin 54, k.val % 9 = 4 → s k = SolvedStickerCube k := by
  refine ⟨by decide, by decide, ⟨_, StickerCubeWrites_eq c h, ?_⟩,
    _, StickerCube_eq_image c h, image_centre c⟩
  decide

/-- The coverage of C7, amended, for the forward transform of `scrambled`. -/
theorem slot_coverage_noncentre_witness :
    InRange scrambled ∧
    ∃ w, CubieCube.StickerCubeWrites scrambled = .ok w ∧
      ∀ k : Fin 54, List.count (k.val : Int) w = if k.val % 9 = 4 then 0 else 1 :=
  ⟨by unfold InRange; decide,
    (slot_coverage_noncentre scrambled (by unfold InRange; decide)).2.2.1⟩

/-- C8, evaluated on the code: on the solved cube with corner slot 0
overwritten by (6, 6, 6) `CubieCube` returns no error and records
orientation -1 in corner slot 0, a value outside 0, 1, 2. -/
theorem accepted_corner_orientation_negative :
    ∃ c, StickerCube.CubieCube (overwriteCorner SolvedStickerCube 0 (6, 6, 6)) = .ok c ∧
      c.Corners 0 = ⟨0, -1⟩ := by
  refine ⟨_, rfl, ?_⟩
  decide

/-- C9: the forward transform never fails on well-formed input.  For every
cubie cube whose corner identities are in 0..7 and whose edge identities are
in 0..11 (orientations 0, 1 or 2, flips arbitrary) `StickerCube` returns a
sticker cube, so no table lookup and no write was out of bounds, and every
non-centre position of the returned cube holds a colour in 1..6. -/
theorem forward_never_fails (c : CubieCube)
    (hc : ∀ i, 0 ≤ (c.Corners i).Piece ∧ (c.Corners i).Piece < 8)
    (he : ∀ i, 0 ≤ (c.Edges i).Piece ∧ (c.Edges i).Piece < 12)
    (ho : ∀ i, (c.Corners i).Orientation = 0 ∨ (c.Corners i).Orientation = 1 ∨
      (c.Corners i).Orientation = 2) :
    ∃ s, CubieCube.StickerCube c = .ok s ∧
      ∀ k : Fin 54, k.val % 9 ≠ 4 → 1 ≤ s k ∧ s k ≤ 6 :=
  ⟨image c, StickerCube_eq_image c ⟨hc, he⟩, image_colours c ⟨hc, he⟩ ho⟩

/-- The forward transform of C9 run on `scrambled`. -/
theorem forward_never_fails_witness :
    (∀ i, 0 ≤ (scrambled.Corners i).Piece ∧ (scrambled.Corners i).Piece < 8) ∧
    (∀ i, 0 ≤ (scrambled.Edges i).Piece ∧ (scrambled.Edges i).Piece < 12) ∧
    ∃ s, CubieCube.StickerCube scrambled = .ok s ∧
      ∀ k : Fin 54, k.val % 9 ≠ 4 → 1 ≤ s k ∧ s k ≤ 6 :=
  ⟨by decide, by decide,
    forward_never_fails scrambled (by decide) (by decide) (by decide)⟩

/-- C10, evaluated on the code: `setsEqual` accepts the lists [1, 1] and
[1, 2], which have equal length and every element of the first in the second,
although the element 2 of the second does not occur in the first. -/
theorem setsEqual_one_sided :
    setsEqual [1, 1] [1, 2] = true ∧
      ¬ (∀ x ∈ ([1, 2] : List Int), x ∈ ([1, 1] : List Int)) := by
  decide

/-- C11: forward transform, corners.  For every cubie cube with identities in
range and orientations 0, 1 or 2, `StickerCube` returns a sticker cube `s`
such that for every corner slot `i`, holding piece `p` with orientation `o`:
the canonical colours `(c1, c2, c3) = CornerPieces[3p], CornerPieces[3p+1],
CornerPieces[3p+2]` exist, and the colours of `s` at the positions
`CornerIndexes[3i], CornerIndexes[3i+1], CornerIndexes[3i+2]`, in that order,
are `(c1, c2, c3)` with `c1` and `c3` swapped exactly when `(p XOR i) & 7` is
one of 1, 2, 4, 7, then reordered to `(c3, c1, c2)` if `o = 2`, to
`(c2, c3, c1)` if `o = 0`, and left unchanged if `o = 1`; and `(p XOR i) & 7`
is one of 1, 2, 4, 7 exactly when `p XOR i` has an odd number of set bits. -/
theorem forward_corner_colours (c : CubieCube)
    (hc : ∀ i, 0 ≤ (c.Corners i).Piece ∧ (c.Corners i).Piece < 8)
    (he : ∀ i, 0 ≤ (c.Edges i).Piece ∧ (c.Edges i).Piece < 12)
    (_ho : ∀ i, (c.Corners i).Orientation = 0 ∨ (c.Corners i).Orientation = 1 ∨
      (c.Corners i).Orientation = 2) :
    ∃ s, CubieCube.StickerCube c = .ok s ∧
      ∀ i : Fin 8, ∃ c1 c2 c3 : Int,
        index CornerPieces ((c.Corners i).Piece * 3) = .ok c1 ∧
        index CornerPieces ((c.Corners i).Piece * 3 + 1) = .ok c2 ∧
        index CornerPieces ((c.Corners i).Piece * 3 + 2) = .ok c3 ∧
        index CornerIndexes ((i.val : Int) * 3) = .ok ((cornerPos i 0).val : Int) ∧
        index CornerIndexes ((i.val : Int) * 3 + 1) = .ok ((cornerPos i 1).val : Int) ∧
        index CornerIndexes ((i.val : Int) * 3 + 2) = .ok ((cornerPos i 2).val : Int) ∧
        (s (cornerPos i 0), s (cornerPos i 1), s (cornerPos i 2)) =
          specReorder (c.Corners i).Orientation
            (specSwap (c.Corners i).Piece (i.val : Int) (c1, c2, c3)) ∧
        (Int.land (Int.xor (c.Corners i).Piece (i.val : Int)) 7 ∈ ([1, 2, 4, 7] : List Int) ↔
          oddBits (Int.xor (c.Corners i).Piece (i.val : Int))) := by
  refine ⟨image c, StickerCube_eq_image c ⟨hc, he⟩, fun i => ?_⟩
  obtain ⟨p0, p1, p2⟩ := index_CornerPieces (c.Corners i).Piece (hc i).1 (hc i).2
  obtain ⟨d0, d1, d2⟩ := index_CornerIndexes i
  refine ⟨_, _, _, p0, p1, p2, d0, d1, d2, ?_, ?_⟩
  · have hs := image_cornerPos c i
    rw [cornerImage, twist_eq_spec] at hs
    exact hs
  · obtain ⟨n, hn⟩ := Int.eq_ofNat_of_zero_le (hc i).1
    have hlt : n < 8 := by have := (hc i).2; omega
    rw [hn]
    exact swap_iff_oddBits ⟨n, hlt⟩ i

/-- The corner colouring of C11 for the forward transform of `scrambled`,
read at corner slot 0, which holds piece 3 with orientation 0. -/
theorem forward_corner_colours_witness :
    ∃ s, CubieCube.StickerCube scrambled = .ok s ∧
      (s (cornerPos 0 0), s (cornerPos 0 1), s (cornerPos 0 2)) = (1, 4, 5) := by
  obtain ⟨s, hs, h⟩ :=
    forward_corner_colours scrambled (by decide) (by decide) (by decide)
  refine ⟨s, hs, ?_⟩
  obtain ⟨c1, c2, c3, h1, h2, h3, _, _, _, h4, _⟩ := h 0
  have e1 : c1 = 5 := by
    have : Outcome.ok c1 = Outcome.ok (5 : Int) := by rw [← h1]; decide
    exact Outcome.ok.inj this
  have e2 : c2 = 1 := by
    have : Outcome.ok c2 = Outcome.ok (1 : Int) := by rw [← h2]; decide
    exact Outcome.ok.inj this
  have e3 : c3 = 4 := by
    have : Outcome.ok c3 = Outcome.ok (4 : Int) := by rw [← h3]; decide
    exact Outcome.ok.inj this
  rw [h4, e1, e2, e3]
  decide

/-- C12: forward transform, edges.  For every cubie cube with identities in
range `StickerCube` returns a sticker cube `s` such that for every edge slot
`i`, holding piece `p` with flip `f`: the canonical colours `EdgePieces[2p]`
and `EdgePieces[2p+1]` exist, and the colours of the final `s` at the
positions `EdgeIndexes[2i], EdgeIndexes[2i+1]`, in that order, are
`(EdgePieces[2p], EdgePieces[2p+1])` when `f` is false and
`(EdgePieces[2p+1], EdgePieces[2p])` when `f` is true. -/
theorem forward_edge_colours (c : CubieCube)
    (hc : ∀ i, 0 ≤ (c.Corners i).Piece ∧ (c.Corners i).Piece < 8)
    (he : ∀ i, 0 ≤ (c.Edges i).Piece ∧ (c.Edges i).Piece < 12) :
    ∃ s, CubieCube.StickerCube c = .ok s ∧
      ∀ i : Fin 12, ∃ e1 e2 : Int,
        index EdgePieces ((c.Edges i).Piece * 2) = .ok e1 ∧
        index EdgePieces ((c.Edges i).Piece * 2 + 1) = .ok e2 ∧
        index EdgeIndexes ((i.val : Int) * 2) = .ok ((edgePos i 0).val : Int) ∧
        index EdgeIndexes ((i.val : Int) * 2 + 1) = .ok ((edgePos i 1).val : Int) ∧
        (s (edgePos i 0), s (edgePos i 1)) =
          if (c.Edges i).Flip = true then (e2, e1) else (e1, e2) := by
  refine ⟨image c, StickerCube_eq_image c ⟨hc, he⟩, fun i => ?_⟩
  obtain ⟨p0, p1⟩ := index_EdgePieces (c.Edges i).Piece (he i).1 (he i).2
  obtain ⟨d0, d1⟩ := index_EdgeIndexes i
  exact ⟨_, _, p0, p1, d0, d1, image_edgePos c i⟩

/-- The edge colouring of C12 for the forward transform of `scrambled`, read
at edge slot 0, which holds piece 1, flipped. -/
theorem forward_edge_colours_witness :
    ∃ s, CubieCube.StickerCube scrambled = .ok s ∧
      (s (edgePos 0 0), s (edgePos 0 1)) = (5, 3) := by
  obtain ⟨s, hs, h⟩ := forward_edge_colours scrambled (by decide) (by decide)
  refine ⟨s, hs, ?_⟩
  obtain ⟨e1, e2, h1, h2, _, _, h3⟩ := h 0
  have q1 : e1 = 3 := by
    have : Outcome.ok e1 = Outcome.ok (3 : Int) := by rw [← h1]; decide
    exact Outcome.ok.inj this
  have q2 : e2 = 5 := by
    have : Outcome.ok e2 = Outcome.ok (5 : Int) := by rw [← h2]; decide
    exact Outcome.ok.inj this
  rw [h3, q1, q2]
  decide

/-- C13: the geometry tables agree with the solved state.  In the solved
sticker cube, for every corner slot `i` the colour at position
`CornerIndexes[3i+j]` is `CornerPieces[3i+j]`, for `j = 0, 1, 2`, and for
every edge slot `i` the colour at position `EdgeIndexes[2i+j]` is
`EdgePieces[2i+j]`, for `j = 0, 1`; all these table entries exist. -/
theorem tables_agree_with_solved :
    (∀ (i : Fin 8) (j : Fin 3), ∃ k col : Int,
      index CornerIndexes ((i.val : Int) * 3 + (j.val : Int)) = .ok k ∧
      StickerCube.read SolvedStickerCube k = .ok col ∧
      index CornerPieces ((i.val : Int) * 3 + (j.val : Int)) = .ok col) ∧
    (∀ (i : Fin 12) (j : Fin 2), ∃ k col : Int,
      index EdgeIndexes ((i.val : Int) * 2 + (j.val : Int)) = .ok k ∧
      StickerCube.read SolvedStickerCube k = .ok col ∧
      index EdgePieces ((i.val : Int) * 2 + (j.val : Int)) = .ok col) := by
  constructor
  · intro i j
    refine ⟨((cornerPos i j).val : Int), cornerColour (i.val : Int) j.val, ?_, ?_, ?_⟩
    · revert i j
      decide
    · rw [read_pos]
      revert i j
      decide
    · revert i j
      decide
  · intro i j
    refine ⟨((edgePos i j).val : Int), edgeColour (i.val : Int) j.val, ?_, ?_, ?_⟩
    · revert i j
      decide
    · rw [read_pos]
      revert i j
      decide
    · revert i j
      decide

/-- C14: reference-colour invariant of the corner table.  Each of the 8
canonical corner colour triples of `CornerPieces` contains colour 1 or colour
2, and so for every sticker triple that is set-equal to the canonical triple
of a piece `p`, `findCorner` returns `p` with an orientation that is 0, 1 or
2. -/
theorem reference_colour_in_every_corner (t : Int × Int × Int) (p : Fin 8)
    (h : SameSet (triple t) (cornerCanon p)) :
    (∀ q : Fin 8, 1 ∈ cornerCanon q ∨ 2 ∈ cornerCanon q) ∧
    ∃ o, findCorner t = .ok ((p.val : Int), o) ∧ (o = 0 ∨ o = 1 ∨ o = 2) := by
  refine ⟨cornerCanon_reference, orientationOf t, findCorner_of_sameSet t p h, ?_⟩
  apply orientationOf_range
  rcases cornerCanon_reference p with h1 | h2
  · exact Or.inl (h.2 1 h1)
  · exact Or.inr (h.2 2 h2)

/-- The invariant of C14 at the triple (4, 6, 2), a reordering of the colours
of corner piece 0. -/
theorem reference_colour_in_every_corner_witness :
    SameSet (triple (4, 6, 2)) (cornerCanon 0) ∧
    ∃ o, findCorner (4, 6, 2) = .ok (((0 : Fin 8).val : Int), o) ∧
      (o = 0 ∨ o = 1 ∨ o = 2) :=
  ⟨by decide, (reference_colour_in_every_corner (4, 6, 2) 0 (by decide)).2⟩

/-- C15 as stated fails: `findCorner` accepts the triple (6, 6, 6), which
contains neither colour 1 nor colour 2, and the orientation it returns is
-1, not 0. -/
theorem missing_reference_not_zero :
    findCorner (6, 6, 6) = .ok (0, -1) ∧
    (1 : Int) ∉ triple (6, 6, 6) ∧ (2 : Int) ∉ triple (6, 6, 6) ∧
    ¬ (∀ (t : Int × Int × Int) (v : Int × Int), findCorner t = .ok v →
      (1 : Int) ∉ triple t → (2 : Int) ∉ triple t → v.2 = 0) := by
  refine ⟨by decide, by decide, by decide, fun h => ?_⟩
  have h0 := h (6, 6, 6) (0, -1) (by decide) (by decide) (by decide)
  exact absurd h0 (by decide)

/-- C15, amended: for every sticker triple that `findCorner` accepts and
that contains neither colour 1 nor colour 2, the orientation `findCorner`
returns is -1, the not-found value of `listIndex`. -/
theorem missing_reference_orientation (t : Int × Int × Int) (v : Int × Int)
    (h : findCorner t = .ok v) (h1 : (1 : Int) ∉ triple t) (h2 : (2 : Int) ∉ triple t) :
    v.2 = -1 := by
  rw [findCorner_orientation t v h]
  exact orientationOf_missing t h1 h2

/-- The orientation of C15, amended, at the accepted triple (6, 6, 6). -/
theorem missing_reference_orientation_witness :
    findCorner (6, 6, 6) = .ok (0, -1) ∧
    (1 : Int) ∉ triple (6, 6, 6) ∧ (2 : Int) ∉ triple (6, 6, 6) ∧
    ((0, -1) : Int × Int).2 = -1 :=
  ⟨by decide, by decide, by decide,
    missing_reference_orientation (6, 6, 6) (0, -1) (by decide) (by decide) (by decide)⟩

/-- C16: exact failure condition of the inverse transform.  `CubieCube`
returns an error if and only if the three stickers of some corner slot are
not all colours of one and the same corner piece of `CornerPieces`, or the
two stickers of some edge slot are not both colours of one and the same edge
piece of `EdgePieces`; the piece's colours need not all occur among the
stickers.  It never panics. -/
theorem inverse_fails_iff (s : StickerCube) :
    ((∃ m, StickerCube.CubieCube s = .err m) ↔
      (∃ i : Fin 8, ¬ ∃ p : Fin 8, ∀ x ∈ triple (cornerStickers s i), x ∈ cornerCanon p) ∨
      (∃ i : Fin 12, ¬ ∃ p : Fin 12, ∀ x ∈ pair (edgeStickers s i), x ∈ edgeCanon p)) ∧
    StickerCube.CubieCube s ≠ .panic := by
  have hca : ∀ i, CornerAccepted s i ↔
      ∃ p : Fin 8, ∀ x ∈ triple (cornerStickers s i), x ∈ cornerCanon p :=
    fun i => findCorner_ok_iff _
  have hea : ∀ i, EdgeAccepted s i ↔
      ∃ p : Fin 12, ∀ x ∈ pair (edgeStickers s i), x ∈ edgeCanon p :=
    fun i => findEdge_ok_iff _
  rcases CubieCube_cases s with ⟨i, hi, he⟩ | ⟨hc, i, hi, he⟩ | ⟨hc, hall, c, hok⟩
  · refine ⟨⟨fun _ => Or.inl ⟨i, fun h => hi.2 ((hca i).2 h)⟩, fun _ => ⟨_, he⟩⟩, ?_⟩
    rw [he]
    exact fun h => Outcome.noConfusion h
  · refine ⟨⟨fun _ => Or.inr ⟨i, fun h => hi.2 ((hea i).2 h)⟩, fun _ => ⟨_, he⟩⟩, ?_⟩
    rw [he]
    exact fun h => Outcome.noConfusion h
  · refine ⟨⟨?_, ?_⟩, ?_⟩
    · rintro ⟨m, hm⟩
      rw [hok] at hm
      exact Outcome.noConfusion hm
    · rintro (⟨i, hi⟩ | ⟨i, hi⟩)
      · exact absurd ((hca i).1 (hc i)) hi
      · exact absurd ((hea i).1 (hall i)) hi
    · rw [hok]
      exact fun h => Outcome.noConfusion h

/-- C17: error precedence.  If a corner slot is rejected, `CubieCube` returns
the error of `findCorner` for the lowest-indexed rejected corner slot,
whatever the edge slots hold; if no corner slot is rejected and an edge slot
is, it returns the error of `findEdge` for the lowest-indexed rejected edge
slot; and whenever `CubieCube` returns an error there is such a first
offending slot, so that the error is the one for it.  An error comes without
a cubie cube. -/
theorem error_precedence (s : StickerCube) :
    (∀ i, FirstRejectedCorner s i →
      StickerCube.CubieCube s = .err (cornerError (cornerStickers s i))) ∧
    (∀ i, (∀ j, CornerAccepted s j) → FirstRejectedEdge s i →
      StickerCube.CubieCube s = .err (edgeError (edgeStickers s i))) ∧
    (∀ m, StickerCube.CubieCube s = .err m →
      (∃ i, FirstRejectedCorner s i ∧ m = cornerError (cornerStickers s i)) ∨
      ((∀ j, CornerAccepted s j) ∧
        ∃ i, FirstRejectedEdge s i ∧ m = edgeError (edgeStickers s i))) := by
  refine ⟨CubieCube_err_corner s, fun i hc hi => CubieCube_err_edge s i hc hi, fun m hm => ?_⟩
  rcases CubieCube_cases s with ⟨i, hi, he⟩ | ⟨hc, i, hi, he⟩ | ⟨_, _, c, hok⟩
  · rw [he] at hm
    exact Or.inl ⟨i, hi, (Outcome.err.inj hm).symm⟩
  · rw [he] at hm
    exact Or.inr ⟨hc, i, hi, (Outcome.err.inj hm).symm⟩
  · rw [hok] at hm
    exact Outcome.noConfusion hm

/-- The precedence of C17 on `doublyCorrupted`, where the corner slots 3 and 5
and the edge slot 2 are rejected: the error is the one of corner slot 3. -/
theorem error_precedence_witness :
    FirstRejectedCorner doublyCorrupted 3 ∧ ¬ CornerAccepted doublyCorrupted 5 ∧
    ¬ EdgeAccepted doublyCorrupted 2 ∧
    StickerCube.CubieCube doublyCorrupted = .err "unrecognized corner: 7,1,7" := by
  have acc : ∀ i : Fin 8, CornerAccepted doublyCorrupted i ↔
      ∃ p : Fin 8, ∀ x ∈ triple (cornerStickers doublyCorrupted i), x ∈ cornerCanon p :=
    fun i => findCorner_ok_iff _
  have h3 : FirstRejectedCorner doublyCorrupted 3 := by
    constructor
    · intro j hj
      rw [acc]
      revert j
      decide
    · rw [acc]
      decide
  refine ⟨h3, ?_, ?_, ?_⟩
  · rw [acc]
    decide
  · unfold EdgeAccepted
    rw [findEdge_ok_iff]
    decide
  · rw [(error_precedence doublyCorrupted).1 3 h3]
    exact congrArg Outcome.err (by decide)

/-- C18: the inverse transform ignores the six centre stickers.  For any two
sticker cubes that agree on all 48 positions other than 4, 13, 22, 31, 40 and
49, `CubieCube` returns the same outcome: equal cubie cubes, or errors with
the same message. -/
theorem centres_ignored (s s2 : StickerCube)
    (h : ∀ k : Fin 54, k.val ∉ [4, 13, 22, 31, 40, 49] → s k = s2 k) :
    StickerCube.CubieCube s = StickerCube.CubieCube s2 := by
  apply CubieCube_congr
  · intro i
    simp only [cornerStickers, h _ (cornerPos_noncentre i 0), h _ (cornerPos_noncentre i 1),
      h _ (cornerPos_noncentre i 2)]
  · intro i
    simp only [edgeStickers, h _ (edgePos_noncentre i 0), h _ (edgePos_noncentre i 1)]

/-- The invariance of C18 for the solved cube and the solved cube with its
centres repainted. -/
theorem centres_ignored_witness :
    (∀ k : Fin 54, k.val ∉ [4, 13, 22, 31, 40, 49] →
      SolvedStickerCube k = centresRepainted k) ∧
    SolvedStickerCube 4 ≠ centresRepainted 4 ∧
    StickerCube.CubieCube SolvedStickerCube = StickerCube.CubieCube centresRepainted :=
  ⟨by decide, by decide, centres_ignored SolvedStickerCube centresRepainted (by decide)⟩

/-- C19: forward image of the home position.  For the cubie cube in which
every corner slot `i` holds piece `i` with orientation 1 and every edge slot
`j` holds piece `j`, not flipped, `StickerCube` returns a cube holding colour
`k + 1` at every non-centre position `9k + m`; with orientation 0 in every
corner slot instead, the cube it returns differs from the solved colouring at
every one of the 24 corner positions. -/
theorem home_position_image :
    (∃ s, CubieCube.StickerCube (homeCube 1) = .ok s ∧
      ∀ k : Fin 54, k.val % 9 ≠ 4 → s k = ((k.val / 9 : Nat) : Int) + 1) ∧
    (∃ s, CubieCube.StickerCube (homeCube 0) = .ok s ∧
      ∀ (i : Fin 8) (j : Fin 3),
        s (cornerPos i j) ≠ (((cornerPos i j).val / 9 : Nat) : Int) + 1) := by
  constructor
  · refine ⟨image (homeCube 1), StickerCube_eq_image _ (by unfold InRange; decide), ?_⟩
    decide
  · refine ⟨image (homeCube 0), StickerCube_eq_image _ (by unfold InRange; decide), ?_⟩
    decide

end Gocube
